import Mathlib

/-!
Verification development for `dash-media-backup-tool.py`, a script that
expands an MPEG-DASH MPD manifest into a deduplicated list of download
items and fetches them with retry/backoff.

Strings are modelled as `List Char`.  The URL helpers below are shallow
embeddings of the CPython `urllib.parse` / `posixpath` functions that the
script calls (`urljoin`, `urlparse`, `quote_plus`, `os.path.join`,
`os.path.splitext`), restricted to the textual behaviour those functions
have on character strings.
-/

namespace DashTool

abbrev Str := List Char

/-- Character list of a string literal. -/
def chars (s : String) : Str := s.data

/-- ASCII lower-casing, as `str.lower` on the characters the tool handles. -/
def toLowerStr (s : Str) : Str := s.map Char.toLower

/-- Python `str.lstrip(c)`: drop every leading occurrence of `c`. -/
def lstripChar (c : Char) (s : Str) : Str := s.dropWhile (· = c)

/-- Whitespace characters stripped by Python `str.strip()` (ASCII fragment). -/
def pyIsSpace (c : Char) : Bool :=
  c = ' ' ∨ c = '\t' ∨ c = '\n' ∨ c = '\x0d' ∨ c = '\x0b' ∨ c = '\x0c'

/-- Python `str.strip()` with no argument: strip whitespace from both ends. -/
def stripWs (s : Str) : Str :=
  ((s.dropWhile pyIsSpace).reverse.dropWhile pyIsSpace).reverse

/-- Index of the last occurrence of `c` in `l` (Python `str.rfind`). -/
def rfindIdx (c : Char) (l : Str) : Option Nat :=
  match l.reverse.findIdx? (· = c) with
  | none => none
  | some k => some (l.length - 1 - k)

/-- Index of the first occurrence of `c` in `l` at position `≥ s`. -/
def findFrom (c : Char) (l : Str) (s : Nat) : Option Nat :=
  match (l.drop s).findIdx? (· = c) with
  | none => none
  | some k => some (s + k)

/-- Python `str.replace(old, new)` worker: replace non-overlapping
occurrences left to right; `fuel` structurally bounds the scan and is
always at least the length of the string where applied. -/
def replaceAllAux (needle repl : Str) : Nat → Str → Str
  | 0, s => s
  | Nat.succ fuel, s =>
    match s with
    | [] => []
    | c :: rest =>
      if needle ≠ [] ∧ needle.isPrefixOf (c :: rest) then
        repl ++ replaceAllAux needle repl fuel (List.drop (needle.length - 1) rest)
      else
        c :: replaceAllAux needle repl fuel rest

/-- Python `str.replace(old, new)`: replace non-overlapping occurrences
left to right.  (Guarded against the empty needle, which the script never
uses.) -/
def replaceAll (needle repl s : Str) : Str := replaceAllAux needle repl s.length s

/-- ASCII alphabetic test (`str.isalpha` on the ASCII range). -/
def isAsciiAlpha (c : Char) : Bool :=
  ('a' ≤ c ∧ c ≤ 'z') ∨ ('A' ≤ c ∧ c ≤ 'Z')

/-- ASCII digit test. -/
def isAsciiDigit (c : Char) : Bool := '0' ≤ c ∧ c ≤ '9'

/-- Characters allowed in a URL scheme (`urllib.parse.scheme_chars`). -/
def schemeChar (c : Char) : Bool :=
  isAsciiAlpha c ∨ isAsciiDigit c ∨ c = '+' ∨ c = '-' ∨ c = '.'

/-- Decimal digits of a natural number; `fuel` structurally bounds the
recursion and is always sufficient where applied. -/
def natDigitsAux : Nat → Nat → Str
  | 0, _ => []
  | Nat.succ fuel, n =>
    if n < 10 then [Char.ofNat (48 + n)]
    else natDigitsAux fuel (n / 10) ++ [Char.ofNat (48 + n % 10)]

/-- Decimal digits of a natural number. -/
def natDigits (n : Nat) : Str := natDigitsAux (n + 1) n

/-- Python `str(i)` for an integer. -/
def intToStr (i : Int) : Str :=
  if i < 0 then '-' :: natDigits i.natAbs else natDigits i.natAbs

/-- Upper-case hex digit. -/
def hexDigit (n : Nat) : Char :=
  if n < 10 then Char.ofNat (48 + n) else Char.ofNat (55 + n)

/-- UTF-8 encoding of a code point, as the byte values Python percent-encodes. -/
def utf8Bytes (n : Nat) : List Nat :=
  if n < 0x80 then [n]
  else if n < 0x800 then [0xC0 + n / 64, 0x80 + n % 64]
  else if n < 0x10000 then [0xE0 + n / 4096, 0x80 + (n / 64) % 64, 0x80 + n % 64]
  else [0xF0 + n / 262144, 0x80 + (n / 4096) % 64, 0x80 + (n / 64) % 64, 0x80 + n % 64]

/-- Embedding of `urllib.parse.quote_plus` with default arguments: keep ASCII
alphanumerics and `_.-~`, turn space into `+`, percent-encode every other
byte of the UTF-8 encoding with upper-case hex. -/
def quotePlus (s : Str) : Str :=
  s.flatMap fun c =>
    if isAsciiAlpha c ∨ isAsciiDigit c ∨ c = '_' ∨ c = '.' ∨ c = '-' ∨ c = '~' then [c]
    else if c = ' ' then ['+']
    else (utf8Bytes c.toNat).flatMap fun b => ['%', hexDigit (b / 16), hexDigit (b % 16)]

/-- Embedding of `posixpath.join(a, b)` for two components. -/
def osPathJoin (a b : Str) : Str :=
  if b.head? = some '/' then b
  else if a = [] ∨ a.getLast? = some '/' then a ++ b
  else a ++ '/' :: b

/-- The extension part of `posixpath.splitext(p)`: the suffix from the last
dot, provided that dot lies after the last slash and the basename has a
non-dot character before it. -/
def splitextExt (p : Str) : Str :=
  match rfindIdx '.' p with
  | none => []
  | some di =>
    let fnStart := match rfindIdx '/' p with
      | none => 0
      | some si => si + 1
    if fnStart ≤ di ∧ ((p.drop fnStart).take (di - fnStart)).any (· ≠ '.') then
      p.drop di
    else []

/-- Result of `urllib.parse.urlparse`: scheme, netloc, path, params,
query, fragment. -/
structure UrlParts where
  scheme : Str
  netloc : Str
  path : Str
  params : Str
  query : Str
  fragment : Str
deriving DecidableEq, Repr

/-- Helper of `urlsplit`: remove tab, carriage-return and newline characters from
the URL before parsing (`_UNSAFE_URL_BYTES_TO_REMOVE`). -/
def removeUnsafeBytes (s : Str) : Str :=
  s.filter fun c => ¬ (c = '\t' ∨ c = '\x0d' ∨ c = '\n')

/-- Embedding of `urllib.parse.urlsplit(url, scheme)` (fragments allowed), producing
scheme, netloc, path, query, fragment. -/
def urlsplitF (url0 : Str) (defaultScheme : Str) : Str × Str × Str × Str × Str :=
  -- leading C0-control/space characters are stripped (WHATWG behaviour)
  let url := removeUnsafeBytes (url0.dropWhile (·.toNat ≤ 32))
  -- scheme: the text before the first ':', when nonempty, starting with an
  -- ASCII letter, and made only of scheme characters
  let pre := url.takeWhile (· ≠ ':')
  let (scheme, url) : Str × Str :=
    if pre.length < url.length ∧ pre ≠ [] ∧ isAsciiAlpha pre.headI ∧
        pre.all schemeChar then
      (toLowerStr pre, url.drop (pre.length + 1))
    else (defaultScheme, url)
  -- netloc: after a leading '//', up to the first of '/', '?', '#'
  let (netloc, url) : Str × Str :=
    if url.take 2 = chars "//" then
      let rest := url.drop 2
      let nl := rest.takeWhile fun c => ¬ (c = '/' ∨ c = '?' ∨ c = '#')
      (nl, rest.drop nl.length)
    else ([], url)
  -- fragment: after the first '#'
  let (url, fragment) : Str × Str :=
    if '#' ∈ url then
      let u := url.takeWhile (· ≠ '#')
      (u, url.drop (u.length + 1))
    else (url, [])
  -- query: after the first '?'
  let (url, query) : Str × Str :=
    if '?' ∈ url then
      let u := url.takeWhile (· ≠ '?')
      (u, url.drop (u.length + 1))
    else (url, [])
  (scheme, netloc, url, query, fragment)

/-- Schemes in `urllib.parse.uses_params` that the tool can meet. -/
def usesParams (s : Str) : Bool :=
  s = [] ∨ s = chars "http" ∨ s = chars "https" ∨ s = chars "ftp" ∨
  s = chars "sftp" ∨ s = chars "rtsp" ∨ s = chars "mms" ∨ s = chars "tel" ∨
  s = chars "sip" ∨ s = chars "imap" ∨ s = chars "hdl" ∨ s = chars "prospero" ∨
  s = chars "shttp" ∨ s = chars "rtspu" ∨ s = chars "sips"

/-- Schemes in `urllib.parse.uses_relative`. -/
def usesRelative (s : Str) : Bool :=
  s = [] ∨ s = chars "http" ∨ s = chars "https" ∨ s = chars "ftp" ∨
  s = chars "file" ∨ s = chars "gopher" ∨ s = chars "nntp" ∨ s = chars "imap" ∨
  s = chars "wais" ∨ s = chars "shttp" ∨ s = chars "mms" ∨ s = chars "prospero" ∨
  s = chars "rtsp" ∨ s = chars "rtspu" ∨ s = chars "sftp" ∨ s = chars "svn" ∨
  s = chars "svn+ssh" ∨ s = chars "ws" ∨ s = chars "wss"

/-- Schemes in `urllib.parse.uses_netloc`. -/
def usesNetloc (s : Str) : Bool :=
  s = [] ∨ s = chars "http" ∨ s = chars "https" ∨ s = chars "ftp" ∨
  s = chars "file" ∨ s = chars "gopher" ∨ s = chars "nntp" ∨ s = chars "telnet" ∨
  s = chars "imap" ∨ s = chars "wais" ∨ s = chars "mms" ∨ s = chars "shttp" ∨
  s = chars "snews" ∨ s = chars "prospero" ∨ s = chars "rtsp" ∨ s = chars "rtspu" ∨
  s = chars "rsync" ∨ s = chars "svn" ∨ s = chars "svn+ssh" ∨ s = chars "sftp" ∨
  s = chars "nfs" ∨ s = chars "git" ∨ s = chars "git+ssh" ∨ s = chars "ws" ∨
  s = chars "wss"

/-- Embedding of `urllib.parse._splitparams`: split `;params` off the last path segment. -/
def splitParams (p : Str) : Str × Str :=
  let i :=
    if '/' ∈ p then
      findFrom ';' p ((rfindIdx '/' p).getD 0)
    else
      findFrom ';' p 0
  match i with
  | none => (p, [])
  | some i => (p.take i, p.drop (i + 1))

/-- Embedding of `urllib.parse.urlparse(url, scheme)` (fragments allowed). -/
def urlparseF (url : Str) (defaultScheme : Str) : UrlParts :=
  let (scheme, netloc, path, query, fragment) := urlsplitF url defaultScheme
  if usesParams scheme ∧ ';' ∈ path then
    let (p, params) := splitParams path
    ⟨scheme, netloc, p, params, query, fragment⟩
  else
    ⟨scheme, netloc, path, [], query, fragment⟩

/-- Embedding of `urllib.parse.urlunsplit`. -/
def urlunsplitF (scheme netloc path query fragment : Str) : Str :=
  let url := path
  let url :=
    if netloc ≠ [] ∨ (scheme ≠ [] ∧ usesNetloc scheme ∧ url.take 2 ≠ chars "//") then
      let u := if url ≠ [] ∧ url.head? ≠ some '/' then '/' :: url else url
      chars "//" ++ netloc ++ u
    else url
  let url := if scheme ≠ [] then scheme ++ ':' :: url else url
  let url := if query ≠ [] then url ++ '?' :: query else url
  if fragment ≠ [] then url ++ '#' :: fragment else url

/-- Embedding of `urllib.parse.urlunparse`. -/
def urlunparseF (u : UrlParts) : Str :=
  let path := if u.params ≠ [] then u.path ++ ';' :: u.params else u.path
  urlunsplitF u.scheme u.netloc path u.query u.fragment

/-- Drop the interior empty segments (`segments[1:-1] = filter(None, ...)`). -/
def filterInterior (segs : List Str) : List Str :=
  match segs with
  | [] => []
  | [s] => [s]
  | first :: s :: rest =>
    first :: (((s :: rest).dropLast.filter (· ≠ [])) ++ [(s :: rest).getLast (by simp)])

/-- The dot-segment resolution loop of `urljoin`. -/
def resolveSegments (segs : List Str) : List Str :=
  segs.foldl
    (fun acc seg =>
      if seg = chars ".." then acc.dropLast
      else if seg = chars "." then acc
      else acc ++ [seg])
    []

/-- Embedding of `urllib.parse.urljoin(base, url)`, the function the script calls as
`join_url`. -/
def joinUrl (base url : Str) : Str :=
  if base = [] then url
  else if url = [] then base
  else
    let b := urlparseF base []
    let r := urlparseF url b.scheme
    if r.scheme ≠ b.scheme ∨ ¬ usesRelative r.scheme then url
    else if usesNetloc r.scheme ∧ r.netloc ≠ [] then
      urlunparseF ⟨r.scheme, r.netloc, r.path, r.params, r.query, r.fragment⟩
    else
      let netloc := if usesNetloc r.scheme then b.netloc else r.netloc
      if r.path = [] ∧ r.params = [] then
        let query := if r.query = [] then b.query else r.query
        urlunparseF ⟨r.scheme, netloc, b.path, b.params, query, r.fragment⟩
      else
        let baseParts0 := List.splitOn '/' b.path
        let baseParts :=
          if baseParts0.getLast? = some [] then baseParts0 else baseParts0.dropLast
        let segments :=
          if r.path.head? = some '/' then List.splitOn '/' r.path
          else filterInterior (baseParts ++ List.splitOn '/' r.path)
        let resolved := resolveSegments segments
        let resolved :=
          if segments.getLast? = some (chars ".") ∨ segments.getLast? = some (chars "..") then
            resolved ++ [([] : Str)]
          else resolved
        let joined := List.intercalate ['/'] resolved
        let joined := if joined = [] then ['/'] else joined
        urlunparseF ⟨r.scheme, netloc, joined, r.params, r.query, r.fragment⟩

/-- Python `urlparse(url).hostname`: strip user info and port from the
netloc, lower-case it, `None` when empty. -/
def urlHostname (url : Str) : Option Str :=
  let netloc := (urlparseF url []).netloc
  let hostinfo :=
    if '@' ∈ netloc then netloc.drop (((rfindIdx '@' netloc).getD 0) + 1) else netloc
  let host :=
    if '[' ∈ hostinfo then
      ((hostinfo.dropWhile (· ≠ '[')).drop 1).takeWhile (· ≠ ']')
    else hostinfo.takeWhile (· ≠ ':')
  if host = [] then none else some (toLowerStr host)

/-! ## The program model

Shallow embedding of `dash-media-backup-tool.py`.  XML elements are
modelled as records carrying exactly the attributes and children the
script reads; numeric attributes are carried as parsed integers (the
script converts them with `int(...)`, assumed well-formed here).  A Python
`dict` is modelled as an association list with insert-or-replace-in-place
semantics, matching insertion-order preservation of `dict`. -/

/-- One `<S>` element of a `SegmentTimeline`: attributes `t`, `d`, `r`. -/
structure SEntry where
  t : Option Int
  d : Option Int
  r : Option Int
deriving DecidableEq, Repr

/-- A `<SegmentTemplate>` element.  `extraChildren` counts child elements
other than the `SegmentTimeline`; it feeds the Python element truthiness
test (`bool(elem)` is `len(elem) > 0`) used by `rep.find(...) or
adp.find(...)`. -/
structure SegTemplate where
  initialization : Option Str
  media : Option Str
  startNumber : Option Int
  timeline : Option (List SEntry)
  extraChildren : Nat
deriving DecidableEq, Repr

/-- A `<SegmentList>` element: an optional `Initialization` child (with
optional `sourceURL` attribute), the `SegmentURL` children (each with an
optional `media` attribute), and a count of other children for the
truthiness test. -/
structure SegList where
  initialization : Option (Option Str)
  segmentURLs : List (Option Str)
  extraChildren : Nat
deriving DecidableEq, Repr

/-- A `<Representation>` element. -/
structure Rep where
  id : Option Str
  bandwidth : Option Str
  mimeType : Option Str
  baseURLs : List (Option Str)
  segmentList : Option SegList
  segmentTemplate : Option SegTemplate
deriving DecidableEq, Repr

/-- An `<AdaptationSet>` element. -/
structure AdaptationSet where
  mimeType : Option Str
  baseURLs : List (Option Str)
  segmentList : Option SegList
  segmentTemplate : Option SegTemplate
  representations : List Rep
deriving DecidableEq, Repr

/-- A `<Period>` element. -/
structure Period where
  baseURLs : List (Option Str)
  adaptationSets : List AdaptationSet
deriving DecidableEq, Repr

/-- The MPD root element. -/
structure MPDRoot where
  baseURLs : List (Option Str)
  periods : List Period
deriving DecidableEq, Repr

/-- Embedding of `_clean_baseurl_text`: `None` stays `None`; after stripping
whitespace, `''` and `'/'` are dropped as no-ops. -/
def cleanBaseurlText (t : Option Str) : Option Str :=
  match t with
  | none => none
  | some s =>
    let t := stripWs s
    if t = [] ∨ t = chars "/" then none else some t

/-- Embedding of `get_all_baseurls`, applied to the `BaseURL` texts of an element:
the cleaned texts, or `['']` when none survives. -/
def getAllBaseurls (bs : List (Option Str)) : List Str :=
  let urls := bs.filterMap cleanBaseurlText
  if urls = [] then [[]] else urls

/-- A resolved download item: URL plus derived relative path. -/
structure DownloadItem where
  url : Str
  relpath : Str
deriving DecidableEq, Repr

/-- Embedding of `ensure_relpath_from_url`. -/
def ensureRelpathFromUrl (url : Str) : Str :=
  let p := urlparseF url []
  let rel := lstripChar '/' p.path
  if p.query ≠ [] then osPathJoin rel (quotePlus p.query) else rel

/-- The item registry: a Python `dict` keyed by URL, as an association
list with replace-in-place / append-if-new update. -/
abbrev Items := List (Str × DownloadItem)

/-- Update `items[url] = v` on a Python dict: replace in place when the key
exists, append otherwise. -/
def dictSet (items : Items) (url : Str) (v : DownloadItem) : Items :=
  if items.any (·.1 = url) then
    items.map fun p => if p.1 = url then (url, v) else p
  else items ++ [(url, v)]

/-- Embedding of `add_item`. -/
def addItem (items : Items) (url : Str) : Items :=
  dictSet items url ⟨url, ensureRelpathFromUrl url⟩

/-- The keys of the registry, in order. -/
def itemKeys (items : Items) : List Str := items.map (·.1)

/-- Value of a natural number written in decimal digits. -/
def natOfDigits (ds : Str) : Nat :=
  ds.foldl (fun a c => a * 10 + (c.toNat - 48)) 0

/-- Zero-padded formatting of an integer: zero-pad the decimal form to width `w`, the
padding going after the sign. -/
def zeroPad (w : Nat) (i : Int) : Str :=
  if i < 0 then
    if w ≤ (natDigits i.natAbs).length + 1 then '-' :: natDigits i.natAbs
    else '-' :: (List.replicate (w - 1 - (natDigits i.natAbs).length) '0' ++ natDigits i.natAbs)
  else
    if w ≤ (natDigits i.natAbs).length then natDigits i.natAbs
    else List.replicate (w - (natDigits i.natAbs).length) '0' ++ natDigits i.natAbs

/-- Match of the regex `\$Number(%0(\d+)d)?\$` at the head of `s`:
returns the optional pad width and the length of the matched text.
(The greedy `\d+` never needs cross-candidate backtracking: a shorter
digit run would have to be followed by `d`, which is not a digit.) -/
def matchNumberTok (s : Str) : Option (Option Nat × Nat) :=
  if (chars "$Number").isPrefixOf s then
    let rest := s.drop 7
    if (chars "%0").isPrefixOf rest then
      let ds := (rest.drop 2).takeWhile isAsciiDigit
      let rest2 := (rest.drop 2).drop ds.length
      if ds ≠ [] ∧ rest2.take 2 = chars "d$" then
        some (some (natOfDigits ds), 11 + ds.length)
      else none
    else if rest.head? = some '$' then some (none, 8) else none
  else none

/-- Replacement text for one `$Number...$` match: the decimal form,
zero-padded when a width was given. -/
def fmtNumber (w : Option Nat) (n : Int) : Str :=
  match w with
  | none => intToStr n
  | some width => zeroPad width n

/-- Worker for the `$Number$` substitution scan; `fuel` structurally
bounds the scan and is always at least the length of the string where
applied. -/
def numberReplaceAux (n : Int) : Nat → Str → Str
  | 0, s => s
  | Nat.succ fuel, s =>
    match s with
    | [] => []
    | c :: rest =>
      match matchNumberTok (c :: rest) with
      | some (w, len) => fmtNumber w n ++ numberReplaceAux n fuel (rest.drop (len - 1))
      | none => c :: numberReplaceAux n fuel rest

/-- Embedding of `re.sub(r"\$Number(%0(\d+)d)?\$", ..., out)`: scan left to right,
replacing every match with the (optionally zero-padded) number. -/
def numberReplace (n : Int) (s : Str) : Str := numberReplaceAux n s.length s

/-- Embedding of `expand_media_template`.  Raising `RuntimeError` is modelled by
`Except.error` with the exception's message. -/
def expandMediaTemplate (pat : Str) (rep : Rep) (number : Option Int) (time : Option Int) :
    Except Str Str := do
  let out := pat
  let out ←
    if (chars "$Number") <:+: out then
      match number with
      | none => Except.error (chars "Template uses $Number$ but number=None")
      | some n => pure (numberReplace n out)
    else pure out
  let out ←
    if (chars "$Time$") <:+: out then
      match time with
      | none => Except.error (chars "Template uses $Time$ but time=None")
      | some t => pure (replaceAll (chars "$Time$") (intToStr t) out)
    else pure out
  let out :=
    if (chars "$RepresentationID$") <:+: out then
      replaceAll (chars "$RepresentationID$") (rep.id.getD []) out
    else out
  let out :=
    if (chars "$Bandwidth$") <:+: out then
      replaceAll (chars "$Bandwidth$") (rep.bandwidth.getD []) out
    else out
  pure out

/-- Embedding of the source's initialization-pattern substitution helper. -/
def initUrlPattern (pat : Str) (rep : Rep) : Str :=
  replaceAll (chars "$Bandwidth$") (rep.bandwidth.getD [])
    (replaceAll (chars "$RepresentationID$") (rep.id.getD []) pat)

/-- Python truthiness of a `SegmentList` element: it has at least one
child. -/
def truthySL (sl : SegList) : Bool :=
  sl.initialization.isSome ∨ sl.segmentURLs ≠ [] ∨ sl.extraChildren ≠ 0

/-- Python truthiness of a `SegmentTemplate` element: it has at least one
child. -/
def truthyST (st : SegTemplate) : Bool :=
  st.timeline.isSome ∨ st.extraChildren ≠ 0

/-- Embedding of `rep.find('mpd:SegmentList', NS) or adp.find(...)`:
Python `or` keeps the first operand only when it is truthy. -/
def pickSegList (rep : Rep) (adp : AdaptationSet) : Option SegList :=
  match rep.segmentList with
  | some sl => if truthySL sl then some sl else adp.segmentList
  | none => adp.segmentList

/-- Embedding of `rep.find('mpd:SegmentTemplate', NS) or adp.find(...)`. -/
def pickSegTemplate (rep : Rep) (adp : AdaptationSet) : Option SegTemplate :=
  match rep.segmentTemplate with
  | some st => if truthyST st then some st else adp.segmentTemplate
  | none => adp.segmentTemplate

/-- Embedding of `parse_segment_list`. -/
def parseSegmentList (rep : Rep) (adp : AdaptationSet) (base : Str) (items : Items) : Items :=
  match pickSegList rep adp with
  | none => items
  | some sl =>
    let items :=
      match sl.initialization with
      | some (some src) => if src ≠ [] then addItem items (joinUrl base src) else items
      | _ => items
    sl.segmentURLs.foldl
      (fun its m =>
        match m with
        | some media => if media ≠ [] then addItem its (joinUrl base media) else its
        | none => its)
      items

/-- Advance of `current_time` after one emission: `if d is not None:
current_time += int(d)`. -/
def stepCur (d : Option Int) (cur : Int) : Int :=
  match d with | some dd => cur + dd | none => cur

/-- Start cursor for one timeline entry: an entry's own `t` overrides the
running cursor; otherwise a still-unset cursor becomes 0. -/
def entryStart (t : Option Int) (cur : Option Int) : Int :=
  match t with
  | some tv => tv
  | none => cur.getD 0

/-- The inner `for _ in range(r + 1)` loop of the timeline branch of
`parse_segment_template`: emit one segment per iteration at the current
cursor, advancing the cursor by `d` when declared. -/
def emitTimelineSegment (media : Str) (rep : Rep) (base : Str) (d : Option Int) :
    Nat → Int → Items → Except Str (Items × Int)
  | 0, cur, items => Except.ok (items, cur)
  | Nat.succ k, cur, items => do
    let seg ← expandMediaTemplate media rep none (some cur)
    emitTimelineSegment media rep base d k (stepCur d cur)
      (addItem items (joinUrl base seg))

/-- The `for s in timeline.findall('mpd:S', NS)` loop of
`parse_segment_template`: `cur = none` models `current_time = None`. -/
def timelineLoop (media : Str) (rep : Rep) (base : Str) :
    List SEntry → Option Int → Items → Except Str Items
  | [], _, items => Except.ok items
  | s :: rest, cur, items => do
    let r := s.r.getD 0
    let res ← emitTimelineSegment media rep base s.d (r + 1).toNat (entryStart s.t cur) items
    timelineLoop media rep base rest (some res.2) res.1

/-- The `for i in range(start_number, start_number + count)` loop of the
number-based branch. -/
def numberLoop (media : Str) (rep : Rep) (base : Str) :
    Nat → Int → Items → Except Str Items
  | 0, _, items => Except.ok items
  | Nat.succ k, i, items => do
    let seg ← expandMediaTemplate media rep (some i) none
    numberLoop media rep base k (i + 1) (addItem items (joinUrl base seg))

/-- Embedding of `parse_segment_template`.  `countEnv` models the environment variable
`DASH_SEGMENT_COUNT` as a parsed integer; `none` covers both an unset and
an empty value (`if not count_env`). -/
def parseSegmentTemplate (rep : Rep) (adp : AdaptationSet) (base : Str)
    (countEnv : Option Int) (items : Items) : Except Str Items :=
  match pickSegTemplate rep adp with
  | none => Except.ok items
  | some st =>
    let items :=
      match st.initialization with
      | some init =>
        if init ≠ [] then addItem items (joinUrl base (initUrlPattern init rep))
        else items
      | none => items
    match st.media with
    | none => Except.ok items
    | some media =>
      if media = [] then Except.ok items
      else
        let startNumber := st.startNumber.getD 1
        match st.timeline with
        | some entries => timelineLoop media rep base entries none items
        | none =>
          match countEnv with
          | none => Except.error (chars "Need DASH_SEGMENT_COUNT for number-based SegmentTemplate")
          | some count => numberLoop media rep base count.toNat startNumber items

/-- The optional command-line filters consumed by `matches_filters`;
`none` models an absent (or empty, hence falsy) repeatable option. -/
structure Args where
  filterReprId : Option (List Str)
  filterMime : Option (List Str)
deriving DecidableEq, Repr

/-- Embedding of `rep.get('mimeType') or adp.get('mimeType') or ''`. -/
def effectiveMime (rep : Rep) (adp : AdaptationSet) : Str :=
  match rep.mimeType with
  | some m =>
    if m ≠ [] then m
    else match adp.mimeType with
      | some a => if a ≠ [] then a else []
      | none => []
  | none =>
    match adp.mimeType with
    | some a => if a ≠ [] then a else []
    | none => []

/-- Embedding of `matches_filters`. -/
def matchesFilters (rep : Rep) (adp : AdaptationSet) (args : Args) : Bool :=
  let idOk :=
    match args.filterReprId with
    | none => true
    | some ids =>
      match rep.id with
      | some i => decide (i ∈ ids)
      | none => false
  if idOk = false then false
  else
    match args.filterMime with
    | none => true
    | some mimes =>
      let mime := effectiveMime rep adp
      mimes.any fun m => (toLowerStr m).isPrefixOf (toLowerStr mime)

/-- Embedding of `effective_base_urls_hierarchy`. -/
def effectiveBaseUrlsHierarchy (root : MPDRoot) (base : Str) :
    List (Rep × AdaptationSet × Str) :=
  let mpdBases := (getAllBaseurls root.baseURLs).map fun b => joinUrl base b
  root.periods.flatMap fun period =>
    let pBases := mpdBases.flatMap fun m =>
      (getAllBaseurls period.baseURLs).map fun b => joinUrl m b
    period.adaptationSets.flatMap fun adp =>
      let aBases := pBases.flatMap fun p =>
        (getAllBaseurls adp.baseURLs).map fun b => joinUrl p b
      adp.representations.flatMap fun rep =>
        let rBases := aBases.flatMap fun a =>
          (getAllBaseurls rep.baseURLs).map fun b => joinUrl a b
        rBases.map fun eff => (rep, adp, eff)

/-- The body of the `collect_items` loop for one
`(representation, adaptationSet, effectiveBase)` triple. -/
def collectStep (args : Args) (countEnv : Option Int) (items : Items)
    (t : Rep × AdaptationSet × Str) : Except Str Items :=
  let (rep, adp, eff) := t
  if matchesFilters rep adp args then do
    let items := parseSegmentList rep adp eff items
    let items ← parseSegmentTemplate rep adp eff countEnv items
    let path := (urlparseF eff []).path
    if items = [] ∧ splitextExt path ≠ [] then pure (addItem items eff)
    else pure items
  else pure items

/-- Embedding of `collect_items` (with the manifest already parsed into `root`). -/
def collectItems (root : MPDRoot) (baseUrl : Str) (args : Args) (countEnv : Option Int) :
    Except Str (List DownloadItem) := do
  let items ← (effectiveBaseUrlsHierarchy root baseUrl).foldlM
    (collectStep args countEnv) ([] : Items)
  pure (items.map (·.2))

/-- Embedding of `check_domain`: an unset or empty `--only-domain` accepts everything;
otherwise the URL's hostname must equal it exactly. -/
def checkDomain (url : Str) (onlyDomain : Option Str) : Bool :=
  match onlyDomain with
  | none => true
  | some d => if d = [] then true else urlHostname url = some d

/-- The retry loop of `download_one`.  The network (together with the
disk writes of an attempt) is abstracted into `oracle`: attempt `i`
either raises an error described by `some e` or succeeds (`none`).
Returns success flag, reported error, number of attempts made, and the
list of backoff sleeps performed between attempts. -/
def dlLoopAux (oracle : Nat → Option Str) (retries : Nat) :
    Nat → Nat → Bool × Option Str × Nat × List Nat
  | 0, _ => (false, none, 0, [])
  | Nat.succ fuel, attempt =>
    if attempt ≤ retries then
      match oracle attempt with
      | none => (true, none, 1, [])
      | some e =>
        if retries < attempt + 1 then (false, some e, 1, [])
        else
          ((dlLoopAux oracle retries fuel (attempt + 1)).1,
           (dlLoopAux oracle retries fuel (attempt + 1)).2.1,
           (dlLoopAux oracle retries fuel (attempt + 1)).2.2.1 + 1,
           min (2 ^ (attempt + 1)) 10 :: (dlLoopAux oracle retries fuel (attempt + 1)).2.2.2)
    else (false, none, 0, [])

def dlLoop (oracle : Nat → Option Str) (retries attempt : Nat) :
    Bool × Option Str × Nat × List Nat :=
  dlLoopAux oracle retries (retries + 1 - attempt) attempt

/-- The result of `download_one` on one item, with instrumentation:
`attempts` counts the fetch attempts actually made (0 when the domain
gate rejects without touching the network). -/
structure DownloadOutcome where
  url : Str
  success : Bool
  error : Option Str
  attempts : Nat
  sleeps : List Nat
deriving DecidableEq, Repr

/-- Embedding of `download_one`. -/
def downloadOne (oracle : Nat → Option Str) (item : DownloadItem)
    (retries : Nat) (onlyDomain : Option Str) : DownloadOutcome :=
  if ¬ checkDomain item.url onlyDomain then
    ⟨item.url, false, some (chars "wrong domain"), 0, []⟩
  else
    ⟨item.url, (dlLoop oracle retries 0).1, (dlLoop oracle retries 0).2.1,
      (dlLoop oracle retries 0).2.2.1, (dlLoop oracle retries 0).2.2.2⟩

/-! ## Projections of the resolution code

The following definitions re-express pieces of the embedded code as
URL-list (or time-list) producers, so that the registration performed by
`parse_segment_list` / `parse_segment_template` can be characterised as
folding `add_item` over an explicit list of URLs.  Each is proved
equivalent to the corresponding loop below. -/

/-- Register a list of URLs one by one. -/
def addAll (items : Items) (urls : List Str) : Items :=
  urls.foldl addItem items

/-- First occurrence of every element, in order of first insertion. -/
def firstOccurrences (urls : List Str) : List Str :=
  urls.foldl (fun acc u => if u ∈ acc then acc else acc ++ [u]) []

/-- The URLs that `parse_segment_list` registers, in order. -/
def segListUrls (rep : Rep) (adp : AdaptationSet) (base : Str) : List Str :=
  match pickSegList rep adp with
  | none => []
  | some sl =>
    (match sl.initialization with
     | some (some src) => if src ≠ [] then [joinUrl base src] else []
     | _ => []) ++
    sl.segmentURLs.filterMap fun m =>
      match m with
      | some media => if media ≠ [] then some (joinUrl base media) else none
      | none => none

/-- The `$Time$` cursor values of the inner `range(r + 1)` loop, with the
final cursor: one value per emission, the cursor advancing by `d` after
each emission when `d` is declared. -/
def emitTimes (d : Option Int) : Nat → Int → List Int × Int
  | 0, cur => ([], cur)
  | Nat.succ k, cur =>
    (cur :: (emitTimes d k (stepCur d cur)).1, (emitTimes d k (stepCur d cur)).2)

/-- The `$Time$` values substituted by the timeline branch of
`parse_segment_template`, entry by entry. -/
def timelineTimes : List SEntry → Option Int → List Int
  | [], _ => []
  | s :: rest, cur =>
    let r := s.r.getD 0
    (emitTimes s.d (r + 1).toNat (entryStart s.t cur)).1 ++
      timelineTimes rest (some (emitTimes s.d (r + 1).toNat (entryStart s.t cur)).2)

/-- The numbers substituted by the number-based branch: `count` values
starting at `i`. -/
def numbersFrom (i : Int) : Nat → List Int
  | 0 => []
  | Nat.succ k => i :: numbersFrom (i + 1) k

/-- The URLs that `parse_segment_template` registers, in order (or the
fatal error it raises). -/
def segTemplateUrls (rep : Rep) (adp : AdaptationSet) (base : Str)
    (countEnv : Option Int) : Except Str (List Str) :=
  match pickSegTemplate rep adp with
  | none => Except.ok []
  | some st =>
    let initUrls : List Str :=
      match st.initialization with
      | some init => if init ≠ [] then [joinUrl base (initUrlPattern init rep)] else []
      | none => []
    match st.media with
    | none => Except.ok initUrls
    | some media =>
      if media = [] then Except.ok initUrls
      else
        let startNumber := st.startNumber.getD 1
        match st.timeline with
        | some entries =>
          ((timelineTimes entries none).mapM
            (fun t => expandMediaTemplate media rep none (some t))).map
            (fun segs => initUrls ++ segs.map (joinUrl base))
        | none =>
          match countEnv with
          | none => Except.error (chars "Need DASH_SEGMENT_COUNT for number-based SegmentTemplate")
          | some count =>
            ((numbersFrom startNumber count.toNat).mapM
              (fun n => expandMediaTemplate media rep (some n) none)).map
              (fun segs => initUrls ++ segs.map (joinUrl base))

/-! ## Spec-side definitions for the base-URL hierarchy -/

/-- One level of the spec's description of base resolution: the level's
meaningful overrides are each joined against every parent base; a level
with no meaningful override passes the parent bases through unchanged. -/
def specLevelBases (parents : List Str) (bs : List (Option Str)) : List Str :=
  let ov := bs.filterMap cleanBaseurlText
  if ov = [] then parents
  else parents.flatMap fun p => ov.map fun b => joinUrl p b

/-- The hierarchy walk as the spec words it: sequential level-by-level
joins of meaningful overrides, root through representation. -/
def specHierarchy (root : MPDRoot) (base : Str) : List (Rep × AdaptationSet × Str) :=
  root.periods.flatMap fun period =>
    let pBases := specLevelBases (specLevelBases [base] root.baseURLs) period.baseURLs
    period.adaptationSets.flatMap fun adp =>
      let aBases := specLevelBases pBases adp.baseURLs
      adp.representations.flatMap fun rep =>
        (specLevelBases aBases rep.baseURLs).map fun eff => (rep, adp, eff)

/-- The effective bases the walk produces for one representation under
one period and adaptation set. -/
def repBases (root : MPDRoot) (base : Str) (period : Period)
    (adp : AdaptationSet) (rep : Rep) : List Str :=
  let mpdBases := (getAllBaseurls root.baseURLs).map fun b => joinUrl base b
  let pBases := mpdBases.flatMap fun m =>
    (getAllBaseurls period.baseURLs).map fun b => joinUrl m b
  let aBases := pBases.flatMap fun p =>
    (getAllBaseurls adp.baseURLs).map fun b => joinUrl p b
  aBases.flatMap fun a =>
    (getAllBaseurls rep.baseURLs).map fun b => joinUrl a b

/-- Count of meaningful base-URL overrides at one level, at least 1. -/
def levelCount (bs : List (Option Str)) : Nat :=
  max (bs.filterMap cleanBaseurlText).length 1

/-- Simulated endpoint for the retry property: fails the first `n`
attempts with the given error descriptions, then succeeds. -/
def failOracle (n : Nat) (errs : Nat → Str) : Nat → Option Str :=
  fun i => if i < n then some (errs i) else none

/-! ## Registry lemmas -/

theorem any_key_iff (items : Items) (u : Str) :
    items.any (·.1 = u) = true ↔ u ∈ itemKeys items := by
  unfold itemKeys
  constructor
  · intro h
    rcases List.any_eq_true.1 h with ⟨p, hp, he⟩
    have hpu : p.1 = u := by simpa using he
    exact hpu ▸ List.mem_map_of_mem _ hp
  · intro h
    rcases List.mem_map.1 h with ⟨p, hp, he⟩
    exact List.any_eq_true.2 ⟨p, hp, by simp [he]⟩

theorem itemKeys_dictSet (items : Items) (u : Str) (v : DownloadItem) :
    itemKeys (dictSet items u v) =
      if u ∈ itemKeys items then itemKeys items else itemKeys items ++ [u] := by
  unfold dictSet
  by_cases h : u ∈ itemKeys items
  · rw [if_pos ((any_key_iff items u).2 h), if_pos h]
    unfold itemKeys
    rw [List.map_map]
    refine List.map_congr_left ?_
    intro p _
    by_cases hp : p.1 = u <;> simp [hp]
  · rw [if_neg (fun hc => h ((any_key_iff items u).1 hc)), if_neg h]
    simp [itemKeys]

theorem itemKeys_addItem (items : Items) (u : Str) :
    itemKeys (addItem items u) =
      if u ∈ itemKeys items then itemKeys items else itemKeys items ++ [u] :=
  itemKeys_dictSet items u _

theorem addItem_mem_keys (items : Items) (u : Str) : u ∈ itemKeys (addItem items u) := by
  rw [itemKeys_addItem]
  by_cases h : u ∈ itemKeys items <;> simp [h]

theorem addItem_idem (items : Items) (u : Str) :
    addItem (addItem items u) u = addItem items u := by
  unfold addItem dictSet
  by_cases h : items.any (·.1 = u) = true
  · rw [if_pos h]
    have h2 : (items.map fun p => if p.1 = u then (u, (⟨u, ensureRelpathFromUrl u⟩ : DownloadItem)) else p).any (·.1 = u) = true := by
      rcases List.any_eq_true.1 h with ⟨p, hp, he⟩
      have hpu : p.1 = u := by simpa using he
      refine List.any_eq_true.2 ⟨(u, ⟨u, ensureRelpathFromUrl u⟩), ?_, by simp⟩
      exact List.mem_map.2 ⟨p, hp, by simp [hpu]⟩
    rw [if_pos h2, List.map_map]
    refine List.map_congr_left ?_
    intro p _
    by_cases hp : p.1 = u <;> simp [hp]
  · rw [if_neg h]
    have h2 : ((items ++ [(u, (⟨u, ensureRelpathFromUrl u⟩ : DownloadItem))]).any (·.1 = u)) = true := by
      simp
    rw [if_pos h2, List.map_append]
    have h3 : (items.map fun p => if p.1 = u then (u, (⟨u, ensureRelpathFromUrl u⟩ : DownloadItem)) else p) = items := by
      refine List.map_congr_left ?_ |>.trans (List.map_id _)
      intro p hp
      have : ¬ p.1 = u := by
        intro he
        exact h (List.any_eq_true.2 ⟨p, hp, by simp [he]⟩)
      simp [this]
    rw [h3]
    simp

theorem itemKeys_foldl_addAll (urls : List Str) :
    ∀ items : Items,
      itemKeys (addAll items urls) =
        urls.foldl (fun acc u => if u ∈ acc then acc else acc ++ [u]) (itemKeys items) := by
  induction urls with
  | nil => intro items; rfl
  | cons u rest ih =>
    intro items
    show itemKeys (addAll (addItem items u) rest) = _
    rw [ih (addItem items u), itemKeys_addItem, List.foldl_cons]

theorem itemKeys_addAll_nil (urls : List Str) :
    itemKeys (addAll [] urls) = firstOccurrences urls :=
  itemKeys_foldl_addAll urls []

theorem firstOcc_nodup (urls : List Str) :
    ∀ acc : List Str, acc.Nodup →
      (urls.foldl (fun acc u => if u ∈ acc then acc else acc ++ [u]) acc).Nodup := by
  induction urls with
  | nil => intro acc h; exact h
  | cons u rest ih =>
    intro acc h
    by_cases hu : u ∈ acc
    · simpa [hu] using ih acc h
    · have : (acc ++ [u]).Nodup := by
        simp [List.nodup_append, h, hu]
      simpa [hu] using ih _ this

/-- Shape invariant of the registry: every entry's value is the item
derived from its key. -/
def wfItems (items : Items) : Prop :=
  ∀ p ∈ items, p = (p.1, (⟨p.1, ensureRelpathFromUrl p.1⟩ : DownloadItem))

theorem wfItems_nil : wfItems [] := by
  intro p hp
  cases hp

theorem wfItems_addItem (items : Items) (u : Str) (h : wfItems items) :
    wfItems (addItem items u) := by
  unfold addItem dictSet
  by_cases hc : items.any (·.1 = u) = true
  · rw [if_pos hc]
    intro p hp
    rcases List.mem_map.1 hp with ⟨q, hq, he⟩
    by_cases hqu : q.1 = u
    · simp only [hqu, if_pos rfl] at he
      simp [← he]
    · simp only [if_neg hqu] at he
      exact he ▸ h q hq
  · rw [if_neg hc]
    intro p hp
    rcases List.mem_append.1 hp with hp | hp
    · exact h p hp
    · simp only [List.mem_singleton] at hp
      simp [hp]

theorem wfItems_addAll (urls : List Str) :
    ∀ items : Items, wfItems items → wfItems (addAll items urls) := by
  induction urls with
  | nil => intro items h; exact h
  | cons u rest ih => intro items h; exact ih _ (wfItems_addItem items u h)

theorem values_of_wf (items : Items) (h : wfItems items) :
    items.map (·.2) = (itemKeys items).map fun u =>
      (⟨u, ensureRelpathFromUrl u⟩ : DownloadItem) := by
  unfold itemKeys
  rw [List.map_map]
  refine List.map_congr_left ?_
  intro p hp
  have := h p hp
  simp only [Function.comp]
  rw [this]

/-! ## Fusion lemmas: the parse loops register exactly their URL lists -/

theorem addAll_append (items : Items) (a b : List Str) :
    addAll items (a ++ b) = addAll (addAll items a) b :=
  List.foldl_append _ _ _ _

theorem segURL_foldl_eq (base : Str) (ms : List (Option Str)) :
    ∀ items : Items,
      ms.foldl
        (fun its m =>
          match m with
          | some media => if media ≠ [] then addItem its (joinUrl base media) else its
          | none => its)
        items =
      addAll items (ms.filterMap fun m =>
        match m with
        | some media => if media ≠ [] then some (joinUrl base media) else none
        | none => none) := by
  induction ms with
  | nil => intro items; rfl
  | cons m rest ih =>
    intro items
    cases m with
    | none => simpa using ih items
    | some media =>
      by_cases h : media = []
      · simp only [List.foldl_cons, List.filterMap_cons, h]
        simpa using ih items
      · simp only [List.foldl_cons, List.filterMap_cons, if_neg h, ne_eq, h,
          not_false_iff, if_pos]
        exact ih (addItem items (joinUrl base media))

theorem parseSegmentList_eq (rep : Rep) (adp : AdaptationSet) (base : Str) (items : Items) :
    parseSegmentList rep adp base items = addAll items (segListUrls rep adp base) := by
  unfold parseSegmentList segListUrls
  cases pickSegList rep adp with
  | none => rfl
  | some sl =>
    dsimp only
    rw [segURL_foldl_eq, addAll_append]
    congr 1
    cases hsi : sl.initialization with
    | none => simp only [hsi]; rfl
    | some src0 =>
      cases src0 with
      | none => simp only [hsi]; rfl
      | some src =>
        by_cases h : src = []
        · simp only [hsi, h]
          rfl
        · simp only [hsi, ne_eq, h, not_false_iff, if_pos]
          rfl

theorem emitTimelineSegment_eq (media : Str) (rep : Rep) (base : Str) (d : Option Int) :
    ∀ (k : Nat) (cur : Int) (items : Items),
      emitTimelineSegment media rep base d k cur items =
        ((emitTimes d k cur).1.mapM fun t =>
            expandMediaTemplate media rep none (some t)).map
          fun segs => (addAll items (segs.map (joinUrl base)), (emitTimes d k cur).2) := by
  intro k
  induction k with
  | zero => intro cur items; rfl
  | succ k ih =>
    intro cur items
    show (do
        let seg ← expandMediaTemplate media rep none (some cur)
        emitTimelineSegment media rep base d k (stepCur d cur)
          (addItem items (joinUrl base seg))) = _
    rw [show (emitTimes d (k + 1) cur).1 =
          cur :: (emitTimes d k (stepCur d cur)).1 from rfl,
        show (emitTimes d (k + 1) cur).2 =
          (emitTimes d k (stepCur d cur)).2 from rfl,
        List.mapM_cons]
    cases hseg : expandMediaTemplate media rep none (some cur) with
    | error e => rfl
    | ok seg =>
      show emitTimelineSegment media rep base d k (stepCur d cur)
        (addItem items (joinUrl base seg)) = _
      rw [ih]
      cases hts : (emitTimes d k (stepCur d cur)).1.mapM
          (fun t => expandMediaTemplate media rep none (some t)) with
      | error e => rfl
      | ok segs => rfl

theorem timelineLoop_eq (media : Str) (rep : Rep) (base : Str) :
    ∀ (entries : List SEntry) (cur : Option Int) (items : Items),
      timelineLoop media rep base entries cur items =
        ((timelineTimes entries cur).mapM fun t =>
            expandMediaTemplate media rep none (some t)).map
          fun segs => addAll items (segs.map (joinUrl base)) := by
  intro entries
  induction entries with
  | nil => intro cur items; rfl
  | cons s rest ih =>
    intro cur items
    show (do
        let res ← emitTimelineSegment media rep base s.d ((s.r.getD 0) + 1).toNat
          (entryStart s.t cur) items
        timelineLoop media rep base rest (some res.2) res.1) = _
    rw [emitTimelineSegment_eq]
    rw [show timelineTimes (s :: rest) cur =
          (emitTimes s.d ((s.r.getD 0) + 1).toNat (entryStart s.t cur)).1 ++
            timelineTimes rest
              (some (emitTimes s.d ((s.r.getD 0) + 1).toNat (entryStart s.t cur)).2)
        from rfl]
    rw [List.mapM_append]
    cases h1 : (emitTimes s.d ((s.r.getD 0) + 1).toNat (entryStart s.t cur)).1.mapM
        (fun t => expandMediaTemplate media rep none (some t)) with
    | error e => rfl
    | ok segs1 =>
      show timelineLoop media rep base rest _ _ = _
      rw [ih]
      cases h2 : (timelineTimes rest
          (some (emitTimes s.d ((s.r.getD 0) + 1).toNat (entryStart s.t cur)).2)).mapM
          (fun t => expandMediaTemplate media rep none (some t)) with
      | error e => rfl
      | ok segs2 =>
        show Except.ok (addAll (addAll items (segs1.map (joinUrl base))) (segs2.map (joinUrl base))) = _
        rw [← addAll_append, ← List.map_append]
        rfl

theorem numberLoop_eq (media : Str) (rep : Rep) (base : Str) :
    ∀ (k : Nat) (i : Int) (items : Items),
      numberLoop media rep base k i items =
        ((numbersFrom i k).mapM fun n =>
            expandMediaTemplate media rep (some n) none).map
          fun segs => addAll items (segs.map (joinUrl base)) := by
  intro k
  induction k with
  | zero => intro i items; rfl
  | succ k ih =>
    intro i items
    show (do
        let seg ← expandMediaTemplate media rep (some i) none
        numberLoop media rep base k (i + 1) (addItem items (joinUrl base seg))) = _
    cases hseg : expandMediaTemplate media rep (some i) none with
    | error e =>
      show Except.error e = _
      simp only [numbersFrom, List.mapM_cons, hseg]
      rfl
    | ok seg =>
      show numberLoop media rep base k (i + 1) (addItem items (joinUrl base seg)) = _
      rw [ih]
      simp only [numbersFrom, List.mapM_cons, hseg]
      cases hts : (numbersFrom (i + 1) k).mapM (fun n => expandMediaTemplate media rep (some n) none) with
      | error e => rfl
      | ok segs => rfl

theorem parseSegmentTemplate_eq (rep : Rep) (adp : AdaptationSet) (base : Str)
    (countEnv : Option Int) (items : Items) :
    parseSegmentTemplate rep adp base countEnv items =
      (segTemplateUrls rep adp base countEnv).map (addAll items) := by
  unfold parseSegmentTemplate segTemplateUrls
  cases pickSegTemplate rep adp with
  | none => rfl
  | some st =>
    dsimp only
    have hinit : (match st.initialization with
        | some init =>
          if init ≠ [] then addItem items (joinUrl base (initUrlPattern init rep))
          else items
        | none => items) =
        addAll items (match st.initialization with
        | some init => if init ≠ [] then [joinUrl base (initUrlPattern init rep)] else []
        | none => []) := by
      cases st.initialization with
      | none => rfl
      | some init =>
        by_cases h : init = []
        · simp [h, addAll]
        · simp [h, addAll]
    rw [hinit]
    cases st.media with
    | none => rfl
    | some media =>
      by_cases hm : media = []
      · simp only [hm]
        rfl
      · simp only [ne_eq, hm, not_false_iff, if_pos, if_neg]
        cases st.timeline with
        | some entries =>
          dsimp only
          rw [timelineLoop_eq]
          cases h2 : (timelineTimes entries none).mapM
              (fun t => expandMediaTemplate media rep none (some t)) with
          | error e => rfl
          | ok segs =>
            show Except.ok (addAll (addAll items _) (segs.map (joinUrl base))) = _
            rw [← addAll_append]
            rfl
        | none =>
          cases countEnv with
          | none => rfl
          | some count =>
            dsimp only
            rw [numberLoop_eq]
            cases h2 : (numbersFrom (st.startNumber.getD 1) count.toNat).mapM
                (fun n => expandMediaTemplate media rep (some n) none) with
            | error e => rfl
            | ok segs =>
              show Except.ok (addAll (addAll items _) (segs.map (joinUrl base))) = _
              rw [← addAll_append]
              rfl

/-! ## Base-URL hierarchy lemmas -/

theorem joinUrl_nil (p : Str) : joinUrl p [] = p := by
  by_cases h : p = [] <;> simp [joinUrl, h]

theorem map_join_eq_specLevel (p : Str) (bs : List (Option Str)) :
    (getAllBaseurls bs).map (fun b => joinUrl p b) = specLevelBases [p] bs := by
  unfold getAllBaseurls specLevelBases
  by_cases h : bs.filterMap cleanBaseurlText = []
  · simp [h, joinUrl_nil]
  · simp [h]

theorem specLevel_eq (parents : List Str) (bs : List (Option Str)) :
    (parents.flatMap fun p => (getAllBaseurls bs).map fun b => joinUrl p b) =
      specLevelBases parents bs := by
  unfold getAllBaseurls specLevelBases
  by_cases h : bs.filterMap cleanBaseurlText = []
  · simp only [h, if_pos]
    simp [joinUrl_nil]
  · simp [h]

theorem specLevel_flatMap_singleton (parents : List Str) (bs : List (Option Str)) :
    (parents.flatMap fun p => specLevelBases [p] bs) = specLevelBases parents bs := by
  unfold specLevelBases
  by_cases h : bs.filterMap cleanBaseurlText = []
  · simp [h]
  · simp [h]

theorem effectiveHierarchy_eq_spec (root : MPDRoot) (base : Str) :
    effectiveBaseUrlsHierarchy root base = specHierarchy root base := by
  unfold effectiveBaseUrlsHierarchy specHierarchy
  simp only [map_join_eq_specLevel, specLevel_eq, specLevel_flatMap_singleton]

theorem effectiveHierarchy_eq_repBases (root : MPDRoot) (base : Str) :
    effectiveBaseUrlsHierarchy root base =
      root.periods.flatMap fun period =>
        period.adaptationSets.flatMap fun adp =>
          adp.representations.flatMap fun rep =>
            (repBases root base period adp rep).map fun eff => (rep, adp, eff) := rfl

theorem getAllBaseurls_length (bs : List (Option Str)) :
    (getAllBaseurls bs).length = levelCount bs := by
  unfold getAllBaseurls levelCount
  by_cases h : bs.filterMap cleanBaseurlText = []
  · simp [h]
  · have : 1 ≤ (bs.filterMap cleanBaseurlText).length :=
      Nat.one_le_iff_ne_zero.2 (by simpa [List.length_eq_zero] using h)
    simp [h]
    omega

theorem flatMap_map_join_length (l : List Str) (g : List Str) (f : Str → Str → Str) :
    (l.flatMap fun p => g.map fun b => f p b).length = l.length * g.length := by
  induction l with
  | nil => simp
  | cons p rest ih =>
    simp [List.flatMap_cons, ih, Nat.succ_mul, Nat.add_comm]

theorem repBases_length (root : MPDRoot) (base : Str) (period : Period)
    (adp : AdaptationSet) (rep : Rep) :
    (repBases root base period adp rep).length =
      levelCount root.baseURLs * levelCount period.baseURLs *
        levelCount adp.baseURLs * levelCount rep.baseURLs := by
  unfold repBases
  rw [flatMap_map_join_length, flatMap_map_join_length, flatMap_map_join_length,
    List.length_map, getAllBaseurls_length, getAllBaseurls_length,
    getAllBaseurls_length, getAllBaseurls_length]

/-! ## Timeline closed forms -/

theorem emitTimes_some (δ : Int) :
    ∀ (k : Nat) (c : Int),
      emitTimes (some δ) k c =
        ((List.range k).map (fun i : Nat => c + (i : Int) * δ), c + (k : Int) * δ) := by
  intro k
  induction k with
  | zero => intro c; simp [emitTimes]
  | succ k ih =>
    intro c
    show (c :: (emitTimes (some δ) k (stepCur (some δ) c)).1,
          (emitTimes (some δ) k (stepCur (some δ) c)).2) = _
    rw [show stepCur (some δ) c = c + δ from rfl, ih]
    rw [Prod.mk.injEq]
    refine ⟨?_, by push_cast; ring⟩
    rw [List.range_succ_eq_map, List.map_cons, List.map_map]
    refine congrArg₂ _ (by push_cast; ring) ?_
    refine List.map_congr_left ?_
    intro i _
    show c + δ + (i : Int) * δ = c + ((Nat.succ i : Nat) : Int) * δ
    push_cast
    ring

theorem emitTimes_none :
    ∀ (k : Nat) (c : Int),
      emitTimes none k c = (List.replicate k c, c) := by
  intro k
  induction k with
  | zero => intro c; simp [emitTimes]
  | succ k ih =>
    intro c
    show (c :: (emitTimes none k (stepCur none c)).1,
          (emitTimes none k (stepCur none c)).2) = _
    rw [show stepCur none c = c from rfl, ih]
    simp [List.replicate_succ]

theorem emitTimes_length (d : Option Int) :
    ∀ (k : Nat) (c : Int), (emitTimes d k c).1.length = k := by
  intro k
  induction k with
  | zero => intro c; rfl
  | succ k ih =>
    intro c
    show (c :: (emitTimes d k (stepCur d c)).1).length = k + 1
    simp [ih]

/-! ## Retry loop lemmas -/

theorem dlLoopAux_success (retries n : Nat) (errs : Nat → Str) :
    ∀ (fuel a : Nat), retries + 1 - a = fuel → a ≤ n → n ≤ retries →
      dlLoopAux (failOracle n errs) retries fuel a =
        (true, none, n - a + 1, (List.range (n - a)).map fun k => min (2 ^ (a + k + 1)) 10) := by
  intro fuel
  induction fuel with
  | zero =>
    intro a hf ha hn
    exfalso
    omega
  | succ fuel ih =>
    intro a hf ha hn
    have hc : a ≤ retries := by omega
    rw [dlLoopAux]
    rw [if_pos hc]
    by_cases han : a < n
    · have ho : failOracle n errs a = some (errs a) := by
        unfold failOracle
        rw [if_pos han]
      rw [ho]
      dsimp only
      have hnr : ¬ retries < a + 1 := by omega
      rw [if_neg hnr]
      rw [ih (a + 1) (by omega) (by omega) hn]
      dsimp only
      have hna : n - a = (n - (a + 1)) + 1 := by omega
      rw [hna, List.range_succ_eq_map, List.map_cons, List.map_map]
      refine congrArg _ (congrArg _ (congrArg₂ _ rfl (congrArg₂ _ rfl ?_)))
      refine List.map_congr_left ?_
      intro k _
      show min (2 ^ (a + 1 + k + 1)) 10 = min (2 ^ (a + (k + 1) + 1)) 10
      have he : a + 1 + k + 1 = a + (k + 1) + 1 := by omega
      rw [he]
    · have hno : ¬ a < n := han
      have ho : failOracle n errs a = none := by
        unfold failOracle
        rw [if_neg hno]
      rw [ho]
      have hz : n - a = 0 := by omega
      rw [hz]
      simp

theorem dlLoopAux_fail (retries n : Nat) (errs : Nat → Str) (hrn : retries < n) :
    ∀ (fuel a : Nat), retries + 1 - a = fuel → a ≤ retries →
      dlLoopAux (failOracle n errs) retries fuel a =
        (false, some (errs retries), retries - a + 1,
          (List.range (retries - a)).map fun k => min (2 ^ (a + k + 1)) 10) := by
  intro fuel
  induction fuel with
  | zero =>
    intro a hf ha
    exfalso
    omega
  | succ fuel ih =>
    intro a hf ha
    rw [dlLoopAux]
    rw [if_pos ha]
    have han : a < n := by omega
    have ho : failOracle n errs a = some (errs a) := by
      unfold failOracle
      rw [if_pos han]
    rw [ho]
    dsimp only
    by_cases halt : a < retries
    · have hnr : ¬ retries < a + 1 := by omega
      rw [if_neg hnr]
      rw [ih (a + 1) (by omega) (by omega)]
      dsimp only
      have hna : retries - a = (retries - (a + 1)) + 1 := by omega
      rw [hna, List.range_succ_eq_map, List.map_cons, List.map_map]
      refine congrArg _ (congrArg _ (congrArg₂ _ rfl (congrArg₂ _ rfl ?_)))
      refine List.map_congr_left ?_
      intro k _
      show min (2 ^ (a + 1 + k + 1)) 10 = min (2 ^ (a + (k + 1) + 1)) 10
      have he : a + 1 + k + 1 = a + (k + 1) + 1 := by omega
      rw [he]
    · have har : a = retries := by omega
      have hra : retries < a + 1 := by omega
      rw [if_pos hra]
      have hz : retries - a = 0 := by omega
      rw [hz, har]
      simp

theorem dlLoop_zero_success (retries n : Nat) (errs : Nat → Str) (h : n ≤ retries) :
    dlLoop (failOracle n errs) retries 0 =
      (true, none, n + 1, (List.range n).map fun k => min (2 ^ (k + 1)) 10) := by
  unfold dlLoop
  have hres := dlLoopAux_success retries n errs (retries + 1 - 0) 0 rfl (by omega) h
  rw [hres]
  simp

theorem dlLoop_zero_fail (retries n : Nat) (errs : Nat → Str) (h : retries < n) :
    dlLoop (failOracle n errs) retries 0 =
      (false, some (errs retries), retries + 1,
        (List.range retries).map fun k => min (2 ^ (k + 1)) 10) := by
  unfold dlLoop
  have hres := dlLoopAux_fail retries n errs h (retries + 1 - 0) 0 rfl (by omega)
  rw [hres]
  simp

/-! ## Completeness of token substitution

These lemmas show that a replacement pass whose replacement text shares no
character with the needle leaves no occurrence of the needle, and the
corresponding facts for the `$Number$` scanner. -/

theorem char_digit_bounds (m : Nat) (hm : m < 10) :
    '0' ≤ Char.ofNat (48 + m) ∧ Char.ofNat (48 + m) ≤ '9' := by
  interval_cases m <;> exact (by decide)

theorem natDigitsAux_chars : ∀ (fuel n : Nat), ∀ c ∈ natDigitsAux fuel n, '0' ≤ c ∧ c ≤ '9' := by
  intro fuel
  induction fuel with
  | zero =>
    intro n c hc
    simp [natDigitsAux] at hc
  | succ fuel ih =>
    intro n c hc
    by_cases h : n < 10
    · rw [show natDigitsAux (fuel + 1) n = [Char.ofNat (48 + n)] from by
        simp [natDigitsAux, h]] at hc
      simp only [List.mem_singleton] at hc
      subst hc
      exact char_digit_bounds n h
    · rw [show natDigitsAux (fuel + 1) n =
          natDigitsAux fuel (n / 10) ++ [Char.ofNat (48 + n % 10)] from by
        simp [natDigitsAux, h]] at hc
      rcases List.mem_append.1 hc with h2 | h2
      · exact ih (n / 10) c h2
      · simp only [List.mem_singleton] at h2
        subst h2
        exact char_digit_bounds _ (Nat.mod_lt _ (by omega))

theorem natDigits_chars (n : Nat) : ∀ c ∈ natDigits n, '0' ≤ c ∧ c ≤ '9' :=
  natDigitsAux_chars (n + 1) n

theorem natDigits_ne_nil (n : Nat) : natDigits n ≠ [] := by
  show natDigitsAux (n + 1) n ≠ []
  rw [natDigitsAux]
  split <;> simp

theorem intToStr_ne_nil (i : Int) : intToStr i ≠ [] := by
  unfold intToStr
  split
  · simp
  · exact natDigits_ne_nil _

theorem intToStr_chars (i : Int) : ∀ c ∈ intToStr i, c = '-' ∨ ('0' ≤ c ∧ c ≤ '9') := by
  unfold intToStr
  split
  · intro c hc
    rcases List.mem_cons.1 hc with h | h
    · exact Or.inl h
    · exact Or.inr (natDigits_chars _ c h)
  · intro c hc
    exact Or.inr (natDigits_chars _ c hc)

theorem replicate_zero_digit (k : Nat) (c : Char) (h : c ∈ List.replicate k '0') :
    '0' ≤ c ∧ c ≤ '9' := by
  have := List.eq_of_mem_replicate h
  subst this
  decide

theorem zeroPad_chars (w : Nat) (i : Int) :
    ∀ c ∈ zeroPad w i, c = '-' ∨ ('0' ≤ c ∧ c ≤ '9') := by
  intro c hc
  unfold zeroPad at hc
  split_ifs at hc
  · rcases List.mem_cons.1 hc with h | h
    · exact Or.inl h
    · exact Or.inr (natDigits_chars _ c h)
  · rcases List.mem_cons.1 hc with h | h
    · exact Or.inl h
    · rcases List.mem_append.1 h with h | h
      · exact Or.inr (replicate_zero_digit _ c h)
      · exact Or.inr (natDigits_chars _ c h)
  · exact Or.inr (natDigits_chars _ c hc)
  · rcases List.mem_append.1 hc with h | h
    · exact Or.inr (replicate_zero_digit _ c h)
    · exact Or.inr (natDigits_chars _ c h)

theorem zeroPad_ne_nil (w : Nat) (i : Int) : zeroPad w i ≠ [] := by
  unfold zeroPad
  split_ifs <;> simp [natDigits_ne_nil]

theorem infix_through_clean (needle : Str) (hn : needle ≠ []) :
    ∀ (a b : Str), (∀ c ∈ a, c ∉ needle) → needle <:+: a ++ b → needle <:+: b := by
  intro a
  induction a with
  | nil =>
    intro b _ h
    simpa using h
  | cons x a' ih =>
    intro b hdisj h
    rw [List.cons_append, List.infix_cons_iff] at h
    rcases h with h | h
    · obtain ⟨n0, n', rfl⟩ : ∃ n0 n', needle = n0 :: n' := by
        cases needle with
        | nil => exact absurd rfl hn
        | cons n0 n' => exact ⟨n0, n', rfl⟩
      rcases List.cons_prefix_cons.1 h with ⟨h1, _⟩
      subst h1
      exact absurd (List.mem_cons_self _ _) (hdisj _ (List.mem_cons_self _ _))
    · exact ih b (fun c hc => hdisj c (List.mem_cons_of_mem _ hc)) h

theorem replaceAllAux_irrel (needle repl : Str) :
    ∀ (fuel fuel' : Nat) (s : Str), s.length ≤ fuel → s.length ≤ fuel' →
      replaceAllAux needle repl fuel s = replaceAllAux needle repl fuel' s := by
  intro fuel
  induction fuel with
  | zero =>
    intro fuel' s h _
    have hs : s = [] := List.eq_nil_of_length_eq_zero (by omega)
    subst hs
    cases fuel' <;> rfl
  | succ fuel ih =>
    intro fuel' s h h'
    cases s with
    | nil => cases fuel' <;> rfl
    | cons c rest =>
      cases fuel' with
      | zero =>
        simp only [List.length_cons] at h'
        omega
      | succ fuel' =>
        simp only [List.length_cons] at h h'
        show (if needle ≠ [] ∧ needle.isPrefixOf (c :: rest) = true then
            repl ++ replaceAllAux needle repl fuel (List.drop (needle.length - 1) rest)
          else c :: replaceAllAux needle repl fuel rest) =
          (if needle ≠ [] ∧ needle.isPrefixOf (c :: rest) = true then
            repl ++ replaceAllAux needle repl fuel' (List.drop (needle.length - 1) rest)
          else c :: replaceAllAux needle repl fuel' rest)
        by_cases hcond : needle ≠ [] ∧ needle.isPrefixOf (c :: rest) = true
        · rw [if_pos hcond, if_pos hcond,
            ih fuel' _ (by simp only [List.length_drop]; omega)
              (by simp only [List.length_drop]; omega)]
        · rw [if_neg hcond, if_neg hcond, ih fuel' rest (by omega) (by omega)]

theorem replaceAll_nil (needle repl : Str) : replaceAll needle repl [] = [] := rfl

theorem replaceAll_cons_match (needle repl : Str) (c : Char) (rest : Str)
    (h : needle ≠ [] ∧ needle.isPrefixOf (c :: rest) = true) :
    replaceAll needle repl (c :: rest) =
      repl ++ replaceAll needle repl (rest.drop (needle.length - 1)) := by
  show (if needle ≠ [] ∧ needle.isPrefixOf (c :: rest) = true then
      repl ++ replaceAllAux needle repl rest.length (List.drop (needle.length - 1) rest)
    else c :: replaceAllAux needle repl rest.length rest) = _
  rw [if_pos h]
  exact congrArg (repl ++ ·)
    (replaceAllAux_irrel needle repl rest.length (List.drop (needle.length - 1) rest).length
      (List.drop (needle.length - 1) rest)
      (by simp only [List.length_drop]; omega) (le_refl _))

theorem replaceAll_cons_nomatch (needle repl : Str) (c : Char) (rest : Str)
    (h : ¬ (needle ≠ [] ∧ needle.isPrefixOf (c :: rest) = true)) :
    replaceAll needle repl (c :: rest) = c :: replaceAll needle repl rest := by
  show (if needle ≠ [] ∧ needle.isPrefixOf (c :: rest) = true then
      repl ++ replaceAllAux needle repl rest.length (List.drop (needle.length - 1) rest)
    else c :: replaceAllAux needle repl rest.length rest) = _
  rw [if_neg h]
  rfl

theorem replaceAll_drop_prefix (needle repl : Str) (hr : repl ≠ [])
    (hdisj : ∀ c ∈ repl, c ∉ needle) (s : Str) :
    ∀ j : Nat, j < needle.length →
      needle.drop j <+: replaceAll needle repl s → needle.drop j <+: s := by
  suffices H : ∀ (N : Nat) (s : Str), s.length ≤ N → ∀ j : Nat, j < needle.length →
      needle.drop j <+: replaceAll needle repl s → needle.drop j <+: s by
    exact H s.length s (le_refl _)
  intro N
  induction N with
  | zero =>
    intro s hs j hj hpre
    have hnil : s = [] := List.eq_nil_of_length_eq_zero (by omega)
    subst hnil
    rw [replaceAll_nil] at hpre
    have hd : needle.drop j = [] := List.prefix_nil.1 hpre
    rw [List.drop_eq_nil_iff] at hd
    omega
  | succ N ih =>
    intro s hs j hj hpre
    cases s with
    | nil =>
      rw [replaceAll_nil] at hpre
      have hd : needle.drop j = [] := List.prefix_nil.1 hpre
      rw [List.drop_eq_nil_iff] at hd
      omega
    | cons c rest =>
      simp only [List.length_cons] at hs
      by_cases hcond : needle ≠ [] ∧ needle.isPrefixOf (c :: rest) = true
      · rw [replaceAll_cons_match needle repl c rest hcond] at hpre
        obtain ⟨r0, r', rfl⟩ := List.exists_cons_of_ne_nil hr
        rw [List.drop_eq_getElem_cons hj, List.cons_append, List.cons_prefix_cons] at hpre
        have hmem : needle[j] ∈ needle := List.getElem_mem hj
        rw [hpre.1] at hmem
        exact absurd hmem (hdisj r0 (List.mem_cons_self _ _))
      · rw [replaceAll_cons_nomatch needle repl c rest hcond] at hpre
        rw [List.drop_eq_getElem_cons hj, List.cons_prefix_cons] at hpre
        obtain ⟨h1, h2⟩ := hpre
        by_cases hj1 : j + 1 < needle.length
        · have hrec := ih rest (by omega) (j + 1) hj1 h2
          rw [List.drop_eq_getElem_cons hj, h1]
          exact List.cons_prefix_cons.2 ⟨rfl, hrec⟩
        · have hnil : needle.drop (j + 1) = [] := List.drop_eq_nil_iff.2 (by omega)
          rw [List.drop_eq_getElem_cons hj, hnil, h1]
          exact List.cons_prefix_cons.2 ⟨rfl, List.nil_prefix⟩

theorem replaceAll_no_infix (needle repl : Str) (hn : needle ≠ []) (hr : repl ≠ [])
    (hdisj : ∀ c ∈ repl, c ∉ needle) (s : Str) :
    ¬ needle <:+: replaceAll needle repl s := by
  suffices H : ∀ (N : Nat) (s : Str), s.length ≤ N →
      ¬ needle <:+: replaceAll needle repl s by
    exact H s.length s (le_refl _)
  intro N
  induction N with
  | zero =>
    intro s hs h
    have hnil : s = [] := List.eq_nil_of_length_eq_zero (by omega)
    subst hnil
    rw [replaceAll_nil] at h
    exact hn (List.infix_nil.1 h)
  | succ N ih =>
    intro s hs h
    cases s with
    | nil =>
      rw [replaceAll_nil] at h
      exact hn (List.infix_nil.1 h)
    | cons c rest =>
      simp only [List.length_cons] at hs
      by_cases hcond : needle ≠ [] ∧ needle.isPrefixOf (c :: rest) = true
      · rw [replaceAll_cons_match needle repl c rest hcond] at h
        exact ih _ (by simp only [List.length_drop]; omega)
          (infix_through_clean needle hn repl _ hdisj h)
      · rw [replaceAll_cons_nomatch needle repl c rest hcond] at h
        rw [List.infix_cons_iff] at h
        rcases h with h | h
        · obtain ⟨n0, n', hne⟩ : ∃ n0 n', needle = n0 :: n' := by
            cases needle with
            | nil => exact absurd rfl hn
            | cons n0 n' => exact ⟨n0, n', rfl⟩
          rw [hne, List.cons_prefix_cons] at h
          obtain ⟨h1, h2⟩ := h
          rw [← hne] at h2
          by_cases hn' : n' = []
          · refine hcond ⟨hn, ?_⟩
            rw [List.isPrefixOf_iff_prefix, hne, hn', h1]
            exact List.cons_prefix_cons.2 ⟨rfl, List.nil_prefix⟩
          · have hd1 : needle.drop 1 = n' := by rw [hne]; rfl
            have hlen : 1 < needle.length := by
              rw [hne]
              simp only [List.length_cons]
              have := List.length_pos.2 hn'
              omega
            have hpre := replaceAll_drop_prefix needle repl hr hdisj rest 1 hlen
              (by rw [hd1]; exact h2)
            rw [hd1] at hpre
            refine hcond ⟨hn, ?_⟩
            rw [List.isPrefixOf_iff_prefix, hne, h1]
            exact List.cons_prefix_cons.2 ⟨rfl, hpre⟩
        · exact ih rest (by omega) h

theorem tokTime_not_fmt : ∀ x ∈ chars "$Time$", ¬ (x = '-' ∨ ('0' ≤ x ∧ x ≤ '9')) := by
  decide

theorem tokNumber_not_fmt : ∀ x ∈ chars "$Number$", ¬ (x = '-' ∨ ('0' ≤ x ∧ x ≤ '9')) := by
  decide

/-- The `$Time$` substitution step leaves no `$Time$` occurrence. -/
theorem timeReplace_no_token (t : Int) (s : Str) :
    ¬ (chars "$Time$") <:+: replaceAll (chars "$Time$") (intToStr t) s :=
  replaceAll_no_infix _ _ (by decide) (intToStr_ne_nil t)
    (fun c hc hmem => tokTime_not_fmt c hmem (intToStr_chars t c hc)) s

theorem fmtNumber_chars (w : Option Nat) (n : Int) :
    ∀ c ∈ fmtNumber w n, c = '-' ∨ ('0' ≤ c ∧ c ≤ '9') := by
  cases w with
  | none => exact intToStr_chars n
  | some width => exact zeroPad_chars width n

theorem fmtNumber_ne_nil (w : Option Nat) (n : Int) : fmtNumber w n ≠ [] := by
  cases w with
  | none => exact intToStr_ne_nil n
  | some width => exact zeroPad_ne_nil width n

theorem numberReplaceAux_irrel (n : Int) :
    ∀ (fuel fuel' : Nat) (s : Str), s.length ≤ fuel → s.length ≤ fuel' →
      numberReplaceAux n fuel s = numberReplaceAux n fuel' s := by
  intro fuel
  induction fuel with
  | zero =>
    intro fuel' s h _
    have hs : s = [] := List.eq_nil_of_length_eq_zero (by omega)
    subst hs
    cases fuel' <;> rfl
  | succ fuel ih =>
    intro fuel' s h h'
    cases s with
    | nil => cases fuel' <;> rfl
    | cons c rest =>
      cases fuel' with
      | zero =>
        simp only [List.length_cons] at h'
        omega
      | succ fuel' =>
        simp only [List.length_cons] at h h'
        show (match matchNumberTok (c :: rest) with
          | some (w, len) => fmtNumber w n ++ numberReplaceAux n fuel (rest.drop (len - 1))
          | none => c :: numberReplaceAux n fuel rest) =
          (match matchNumberTok (c :: rest) with
          | some (w, len) => fmtNumber w n ++ numberReplaceAux n fuel' (rest.drop (len - 1))
          | none => c :: numberReplaceAux n fuel' rest)
        cases hm : matchNumberTok (c :: rest) with
        | some wl =>
          obtain ⟨w, len⟩ := wl
          dsimp only
          rw [ih fuel' _ (by simp only [List.length_drop]; omega)
            (by simp only [List.length_drop]; omega)]
        | none =>
          dsimp only
          rw [ih fuel' rest (by omega) (by omega)]

theorem numberReplace_nil (n : Int) : numberReplace n [] = [] := rfl

theorem numberReplace_cons_match (n : Int) (c : Char) (rest : Str) (w : Option Nat)
    (len : Nat) (h : matchNumberTok (c :: rest) = some (w, len)) :
    numberReplace n (c :: rest) =
      fmtNumber w n ++ numberReplace n (rest.drop (len - 1)) := by
  show (match matchNumberTok (c :: rest) with
    | some (w, len) => fmtNumber w n ++ numberReplaceAux n rest.length (rest.drop (len - 1))
    | none => c :: numberReplaceAux n rest.length rest) = _
  rw [h]
  exact congrArg (fmtNumber w n ++ ·)
    (numberReplaceAux_irrel n rest.length (rest.drop (len - 1)).length (rest.drop (len - 1))
      (by simp only [List.length_drop]; omega) (le_refl _))

theorem numberReplace_cons_nomatch (n : Int) (c : Char) (rest : Str)
    (h : matchNumberTok (c :: rest) = none) :
    numberReplace n (c :: rest) = c :: numberReplace n rest := by
  show (match matchNumberTok (c :: rest) with
    | some (w, len) => fmtNumber w n ++ numberReplaceAux n rest.length (rest.drop (len - 1))
    | none => c :: numberReplaceAux n rest.length rest) = _
  rw [h]
  rfl

theorem matchNumberTok_of_tok_prefix (t : Str) :
    matchNumberTok (chars "$Number$" ++ t) = some (none, 8) := rfl

theorem numberReplace_drop_prefix (n : Int) (s : Str) :
    ∀ j : Nat, 1 ≤ j → j < 8 →
      (chars "$Number$").drop j <+: numberReplace n s →
        (chars "$Number$").drop j <+: s := by
  suffices H : ∀ (N : Nat) (s : Str), s.length ≤ N → ∀ j : Nat, 1 ≤ j → j < 8 →
      (chars "$Number$").drop j <+: numberReplace n s →
        (chars "$Number$").drop j <+: s by
    exact H s.length s (le_refl _)
  intro N
  induction N with
  | zero =>
    intro s hs j h1 h8 hpre
    have hsnil : s = [] := List.eq_nil_of_length_eq_zero (by omega)
    subst hsnil
    rw [numberReplace_nil] at hpre
    have hd : (chars "$Number$").drop j = [] := List.prefix_nil.1 hpre
    rw [List.drop_eq_nil_iff] at hd
    have hlen : (chars "$Number$").length = 8 := rfl
    omega
  | succ N ihN =>
    intro s hs j h1 h8 hpre
    cases s with
    | nil =>
      rw [numberReplace_nil] at hpre
      have hd : (chars "$Number$").drop j = [] := List.prefix_nil.1 hpre
      rw [List.drop_eq_nil_iff] at hd
      have hlen : (chars "$Number$").length = 8 := rfl
      omega
    | cons c rest =>
      simp only [List.length_cons] at hs
      cases hm : matchNumberTok (c :: rest) with
      | some wl =>
        obtain ⟨w, len⟩ := wl
        rw [numberReplace_cons_match n c rest w len hm] at hpre
        have hj : j < (chars "$Number$").length := by
          have hlen : (chars "$Number$").length = 8 := rfl
          omega
        obtain ⟨f0, f', hf⟩ := List.exists_cons_of_ne_nil (fmtNumber_ne_nil w n)
        rw [hf, List.drop_eq_getElem_cons hj, List.cons_append, List.cons_prefix_cons] at hpre
        have hmem : (chars "$Number$")[j] ∈ chars "$Number$" := List.getElem_mem hj
        rw [hpre.1] at hmem
        have hf0 : f0 ∈ fmtNumber w n := by
          rw [hf]
          exact List.mem_cons_self _ _
        exact absurd (fmtNumber_chars w n f0 hf0) (tokNumber_not_fmt f0 hmem)
      | none =>
        rw [numberReplace_cons_nomatch n c rest hm] at hpre
        have hj : j < (chars "$Number$").length := by
          have hlen : (chars "$Number$").length = 8 := rfl
          omega
        rw [List.drop_eq_getElem_cons hj, List.cons_prefix_cons] at hpre
        obtain ⟨hc, h2⟩ := hpre
        by_cases hj1 : j + 1 < 8
        · have hrec := ihN rest (by omega) (j + 1) (by omega) hj1 h2
          rw [List.drop_eq_getElem_cons hj, hc]
          exact List.cons_prefix_cons.2 ⟨rfl, hrec⟩
        · have hnil : (chars "$Number$").drop (j + 1) = [] := by
            refine List.drop_eq_nil_iff.2 ?_
            have hlen : (chars "$Number$").length = 8 := rfl
            omega
          rw [List.drop_eq_getElem_cons hj, hnil, hc]
          exact List.cons_prefix_cons.2 ⟨rfl, List.nil_prefix⟩

/-- The `$Number$` substitution step leaves no exact `$Number$`
occurrence. -/
theorem numberReplace_no_token (n : Int) (s : Str) :
    ¬ (chars "$Number$") <:+: numberReplace n s := by
  suffices H : ∀ (N : Nat) (s : Str), s.length ≤ N →
      ¬ (chars "$Number$") <:+: numberReplace n s by
    exact H s.length s (le_refl _)
  intro N
  induction N with
  | zero =>
    intro s hs h
    have hsnil : s = [] := List.eq_nil_of_length_eq_zero (by omega)
    subst hsnil
    rw [numberReplace_nil] at h
    exact absurd (List.infix_nil.1 h) (by decide)
  | succ N ihN =>
    intro s hs h
    cases s with
    | nil =>
      rw [numberReplace_nil] at h
      exact absurd (List.infix_nil.1 h) (by decide)
    | cons c rest =>
      simp only [List.length_cons] at hs
      cases hm : matchNumberTok (c :: rest) with
      | some wl =>
        obtain ⟨w, len⟩ := wl
        rw [numberReplace_cons_match n c rest w len hm] at h
        exact ihN _ (by simp only [List.length_drop]; omega)
          (infix_through_clean _ (by decide) _ _
            (fun ch hch hmem => tokNumber_not_fmt ch hmem (fmtNumber_chars w n ch hch)) h)
      | none =>
        rw [numberReplace_cons_nomatch n c rest hm] at h
        rw [List.infix_cons_iff] at h
        rcases h with h | h
        · rw [show chars "$Number$" = '$' :: chars "Number$" from rfl,
            List.cons_prefix_cons] at h
          obtain ⟨hc, h2⟩ := h
          have h3 : (chars "$Number$").drop 1 <+: numberReplace n rest := by
            rw [show (chars "$Number$").drop 1 = chars "Number$" from rfl]
            exact h2
          have h4 := numberReplace_drop_prefix n rest 1 (by omega) (by omega) h3
          rw [show (chars "$Number$").drop 1 = chars "Number$" from rfl] at h4
          have h5 : chars "$Number$" <+: c :: rest := by
            rw [show chars "$Number$" = '$' :: chars "Number$" from rfl, hc]
            exact List.cons_prefix_cons.2 ⟨rfl, h4⟩
          obtain ⟨t, ht⟩ := h5
          rw [← ht, matchNumberTok_of_tok_prefix t] at hm
          cases hm
        · exact ihN rest (by omega) h

/-! ## Concrete fixtures for witnesses and counterexamples -/

/-- Arguments with no filters configured. -/
def noArgs : Args := ⟨none, none⟩

/-- Manifest URL used by the concrete examples. -/
def manifestBase : Str := chars "http://a.com/d/m.mpd"

/-- Segment list declaring one media URL (used by the C1 example). -/
def slA : SegList := ⟨none, [some (chars "list1.m4s")], 0⟩

/-- Segment template with a one-entry timeline (used by the C1 example). -/
def stA : SegTemplate := ⟨none, some (chars "tpl-$Time$.m4s"), none, some [⟨some 5, none, none⟩], 0⟩

/-- Representation declaring both a segment list and a segment template. -/
def repBothA : Rep := ⟨some (chars "r1"), none, none, [], some slA, some stA⟩

/-- Adaptation set containing `repBothA`. -/
def adpA : AdaptationSet := ⟨none, [], none, none, [repBothA]⟩

/-- Root containing one period with `adpA`. -/
def rootA : MPDRoot := ⟨[], [⟨[], [adpA]⟩]⟩

/-- Segment list for the first representation of the C2 example. -/
def slB : SegList := ⟨none, [some (chars "seg-b.m4s")], 0⟩

/-- Representation that declares an explicit segment list. -/
def repWithList : Rep := ⟨some (chars "a"), none, none, [], some slB, none⟩

/-- Representation declaring neither addressing scheme, whose base URL
override names a single static file. -/
def repDirect : Rep := ⟨some (chars "b"), none, none, [some (chars "video-b.mp4")], none, none⟩

/-- Adaptation set with `repWithList` before `repDirect`. -/
def adpB : AdaptationSet := ⟨none, [], none, none, [repWithList, repDirect]⟩

/-- Root of the C2 example. -/
def rootB : MPDRoot := ⟨[], [⟨[], [adpB]⟩]⟩

/-! ## Claim theorems -/

/-- Claim C1, counterexample.  For the representation `repBothA`, an
explicit (truthy) segment list applies, yet `collect_items` also expands
the declared segment template: the result contains the template-derived
URL `tpl-5.m4s` in addition to the list-derived `list1.m4s`, so items are
registered from both addressing strategies rather than from at most one
chosen by priority. -/
theorem C1_counterexample :
    pickSegList repBothA adpA = some slA ∧
    collectItems rootA manifestBase noArgs none =
      Except.ok
        [⟨chars "http://a.com/d/list1.m4s", chars "d/list1.m4s"⟩,
         ⟨chars "http://a.com/d/tpl-5.m4s", chars "d/tpl-5.m4s"⟩] ∧
    chars "http://a.com/d/tpl-5.m4s" ∉ segListUrls repBothA adpA manifestBase :=
  ⟨rfl, rfl, by decide⟩

/-- Claim C1 (amended): for every selected `(representation, effectiveBase)`
pair, both addressing strategies are expanded independently: the segment
list's URLs are all registered, and then the segment template's URLs are
all registered on top of them — a declared segment template is not ignored
when a segment list applies. -/
theorem C1_both_strategies_registered (rep : Rep) (adp : AdaptationSet) (base : Str)
    (countEnv : Option Int) (items : Items) (urls : List Str)
    (h : segTemplateUrls rep adp base countEnv = Except.ok urls) :
    parseSegmentList rep adp base items = addAll items (segListUrls rep adp base) ∧
    parseSegmentTemplate rep adp base countEnv (parseSegmentList rep adp base items) =
      Except.ok (addAll (addAll items (segListUrls rep adp base)) urls) := by
  refine ⟨parseSegmentList_eq rep adp base items, ?_⟩
  rw [parseSegmentList_eq, parseSegmentTemplate_eq, h]
  rfl

/-- Witness for C1's amended theorem at the concrete manifest of the
counterexample. -/
theorem C1_witness :
    parseSegmentList repBothA adpA manifestBase [] =
      addAll [] (segListUrls repBothA adpA manifestBase) ∧
    parseSegmentTemplate repBothA adpA manifestBase none
        (parseSegmentList repBothA adpA manifestBase []) =
      Except.ok (addAll (addAll [] (segListUrls repBothA adpA manifestBase))
        [chars "http://a.com/d/tpl-5.m4s"]) :=
  C1_both_strategies_registered repBothA adpA manifestBase none []
    [chars "http://a.com/d/tpl-5.m4s"] rfl

/-- Claim C2, counterexample.  `repDirect` declares neither a segment list
nor a segment template and its effective base path ends with the extension
`.mp4`, yet because `repWithList` already registered an item, the global
registry is non-empty when `repDirect` is processed and the effective base
is NOT registered — contradicting "regardless of what other
representations have already registered". -/
theorem C2_counterexample :
    pickSegList repDirect adpB = none ∧
    pickSegTemplate repDirect adpB = none ∧
    splitextExt ((urlparseF (chars "http://a.com/d/video-b.mp4") []).path) ≠ [] ∧
    collectItems rootB manifestBase noArgs none =
      Except.ok [⟨chars "http://a.com/d/seg-b.m4s", chars "d/seg-b.m4s"⟩] :=
  ⟨rfl, rfl, by decide, rfl⟩

set_option maxHeartbeats 1000000 in
/-- Claim C2 (amended): when a selected representation declares neither a
segment list nor a segment template and its effective base path ends with
a file extension, the effective base is registered as a direct-download
item only when the registry is still empty at that point; if any earlier
processing already registered an item, nothing is registered for the
pair. -/
theorem C2_direct_file_only_when_registry_empty
    (rep : Rep) (adp : AdaptationSet) (eff : Str) (args : Args) (countEnv : Option Int)
    (items : Items)
    (hsl : pickSegList rep adp = none) (hst : pickSegTemplate rep adp = none)
    (hmatch : matchesFilters rep adp args = true) :
    (items ≠ [] → collectStep args countEnv items (rep, adp, eff) = Except.ok items) ∧
    (splitextExt ((urlparseF eff []).path) ≠ [] →
      collectStep args countEnv [] (rep, adp, eff) = Except.ok (addItem [] eff)) := by
  have h1 : ∀ its : Items, parseSegmentList rep adp eff its = its := by
    intro its
    unfold parseSegmentList
    rw [hsl]
  have h2 : ∀ its : Items, parseSegmentTemplate rep adp eff countEnv its = Except.ok its := by
    intro its
    unfold parseSegmentTemplate
    rw [hst]
  constructor
  · intro hne
    unfold collectStep
    dsimp only
    rw [if_pos hmatch]
    rw [h1, h2]
    show (if items = [] ∧ splitextExt ((urlparseF eff []).path) ≠ []
        then pure (addItem items eff) else pure items : Except Str Items) = Except.ok items
    have hcond : ¬ (items = [] ∧ splitextExt ((urlparseF eff []).path) ≠ []) := by
      intro hc
      exact hne hc.1
    rw [if_neg hcond]
    rfl
  · intro hext
    unfold collectStep
    dsimp only
    rw [if_pos hmatch]
    rw [h1, h2]
    show (if ([] : Items) = [] ∧ splitextExt ((urlparseF eff []).path) ≠ []
        then pure (addItem ([] : Items) eff) else pure ([] : Items) : Except Str Items) =
      Except.ok (addItem [] eff)
    rw [if_pos ⟨rfl, hext⟩]
    rfl

/-- Witness for C2's amended theorem: with an item already registered the
direct-file pair adds nothing; with an empty registry it registers the
effective base. -/
theorem C2_witness :
    collectStep noArgs none [(chars "http://a.com/d/seg-b.m4s",
        ⟨chars "http://a.com/d/seg-b.m4s", chars "d/seg-b.m4s"⟩)]
      (repDirect, adpB, chars "http://a.com/d/video-b.mp4") =
      Except.ok [(chars "http://a.com/d/seg-b.m4s",
        ⟨chars "http://a.com/d/seg-b.m4s", chars "d/seg-b.m4s"⟩)] ∧
    collectStep noArgs none [] (repDirect, adpB, chars "http://a.com/d/video-b.mp4") =
      Except.ok (addItem [] (chars "http://a.com/d/video-b.mp4")) :=
  ⟨(C2_direct_file_only_when_registry_empty repDirect adpB
      (chars "http://a.com/d/video-b.mp4") noArgs none _ rfl rfl rfl).1 (by decide),
   (C2_direct_file_only_when_registry_empty repDirect adpB
      (chars "http://a.com/d/video-b.mp4") noArgs none [] rfl rfl rfl).2 (by decide)⟩

/-- Claim C3, counterexample.  Two different URLs that share a path map to
the same relative path: the host is discarded, so relative-path derivation
is not injective and distinct URLs can collide on disk. -/
theorem C3_counterexample :
    ensureRelpathFromUrl (chars "http://a.com/x") =
      ensureRelpathFromUrl (chars "http://b.com/x") ∧
    chars "http://a.com/x" ≠ chars "http://b.com/x" :=
  ⟨rfl, by decide⟩

/-- Claim C3 (amended): the relative path of a download item is a pure
function of the URL's parsed path and query only — the same URL (indeed,
any two URLs sharing path and query) always yields the same relative
path, and a present query string is appended, percent-encoded, as an
extra path segment — but two different URLs may collide on disk when they
differ only in scheme or host. -/
theorem C3_relpath_function_of_path_query (u v : Str)
    (hp : (urlparseF u []).path = (urlparseF v []).path)
    (hq : (urlparseF u []).query = (urlparseF v []).query) :
    ensureRelpathFromUrl u = ensureRelpathFromUrl v ∧
    ((urlparseF u []).query ≠ [] →
      ensureRelpathFromUrl u =
        osPathJoin (lstripChar '/' (urlparseF u []).path)
          (quotePlus (urlparseF u []).query)) ∧
    ((urlparseF u []).query = [] →
      ensureRelpathFromUrl u = lstripChar '/' (urlparseF u []).path) := by
  refine ⟨?_, ?_, ?_⟩
  · unfold ensureRelpathFromUrl
    dsimp only
    rw [hp, hq]
  · intro h
    unfold ensureRelpathFromUrl
    dsimp only
    rw [if_pos h]
  · intro h
    unfold ensureRelpathFromUrl
    dsimp only
    rw [h]
    simp

/-- Witness for C3's amended theorem: a URL with a query collides with a
same-path same-query URL on another host, and embeds the encoded query. -/
theorem C3_witness :
    ensureRelpathFromUrl (chars "http://a.com/p/x.m4s?a=1&b=2") =
      ensureRelpathFromUrl (chars "https://b.org/p/x.m4s?a=1&b=2") ∧
    ((urlparseF (chars "http://a.com/p/x.m4s?a=1&b=2") []).query ≠ [] →
      ensureRelpathFromUrl (chars "http://a.com/p/x.m4s?a=1&b=2") =
        osPathJoin (lstripChar '/' (urlparseF (chars "http://a.com/p/x.m4s?a=1&b=2") []).path)
          (quotePlus (urlparseF (chars "http://a.com/p/x.m4s?a=1&b=2") []).query)) ∧
    ((urlparseF (chars "http://a.com/p/x.m4s?a=1&b=2") []).query = [] →
      ensureRelpathFromUrl (chars "http://a.com/p/x.m4s?a=1&b=2") =
        lstripChar '/' (urlparseF (chars "http://a.com/p/x.m4s?a=1&b=2") []).path) :=
  C3_relpath_function_of_path_query
    (chars "http://a.com/p/x.m4s?a=1&b=2") (chars "https://b.org/p/x.m4s?a=1&b=2") rfl rfl

/-- Claim C4 (confirmed): timeline-driven template expansion keeps a
running cursor initialised to the first entry's start time (0 when absent
and the cursor is unset); an entry with a declared duration emits
`repeatCount + 1` cursor values in arithmetic progression and advances the
cursor after every emission including the last; an entry without a
duration emits identical values and leaves the cursor unchanged; a later
entry's declared start time overrides the running cursor; the timeline
loop registers exactly the expansion of the media pattern at those cursor
values; and the spec's example `[{t:0,d:2,r:1},{d:3,r:0}]` yields times
`[0, 2, 4]`. -/
theorem C4_timeline_cursor :
    timelineTimes [⟨some 0, some 2, some 1⟩, ⟨none, some 3, some 0⟩] none = [0, 2, 4] ∧
    (∀ (δ : Int) (k : Nat) (c : Int),
      emitTimes (some δ) k c =
        ((List.range k).map (fun i : Nat => c + (i : Int) * δ), c + (k : Int) * δ)) ∧
    (∀ (k : Nat) (c : Int), emitTimes none k c = (List.replicate k c, c)) ∧
    (∀ (d : Option Int) (k : Nat) (c : Int), (emitTimes d k c).1.length = k) ∧
    (∀ (t : Int) (d r : Option Int) (rest : List SEntry) (cur cur' : Option Int),
      timelineTimes (⟨some t, d, r⟩ :: rest) cur =
        timelineTimes (⟨some t, d, r⟩ :: rest) cur') ∧
    (∀ (d r : Option Int) (rest : List SEntry),
      timelineTimes (⟨none, d, r⟩ :: rest) none =
        timelineTimes (⟨some 0, d, r⟩ :: rest) none) ∧
    (∀ (media : Str) (rep : Rep) (base : Str) (entries : List SEntry)
        (cur : Option Int) (items : Items),
      timelineLoop media rep base entries cur items =
        ((timelineTimes entries cur).mapM fun t =>
            expandMediaTemplate media rep none (some t)).map
          fun segs => addAll items (segs.map (joinUrl base))) :=
  ⟨rfl, fun δ k c => emitTimes_some δ k c, fun k c => emitTimes_none k c,
   fun d k c => emitTimes_length d k c,
   fun _ _ _ _ _ _ => rfl, fun _ _ _ => rfl,
   fun media rep base entries cur items => timelineLoop_eq media rep base entries cur items⟩

/-- Claim C5 (confirmed): the hierarchy walk's effective bases are exactly
the sequential relative-URL joins of each level's meaningful overrides
against each parent base, where a level with no meaningful override
(empty-string or `/` declarations are dropped as no-ops) passes the
parent bases through unchanged (joining the placeholder empty string is
the identity), and the number of effective bases per representation is
the product over the four levels of the meaningful-override count, taking
1 for a level with none. -/
theorem C5_hierarchy_bases :
    (∀ (root : MPDRoot) (base : Str),
      effectiveBaseUrlsHierarchy root base = specHierarchy root base) ∧
    (∀ (root : MPDRoot) (base : Str),
      effectiveBaseUrlsHierarchy root base =
        root.periods.flatMap fun period =>
          period.adaptationSets.flatMap fun adp =>
            adp.representations.flatMap fun rep =>
              (repBases root base period adp rep).map fun eff => (rep, adp, eff)) ∧
    (∀ (root : MPDRoot) (base : Str) (period : Period) (adp : AdaptationSet) (rep : Rep),
      (repBases root base period adp rep).length =
        levelCount root.baseURLs * levelCount period.baseURLs *
          levelCount adp.baseURLs * levelCount rep.baseURLs) ∧
    (∀ p : Str, joinUrl p [] = p) :=
  ⟨effectiveHierarchy_eq_spec, effectiveHierarchy_eq_repBases, repBases_length, joinUrl_nil⟩

/-- Claim C7 (confirmed): registration is idempotent, the key set gains a
URL only on first registration (so the registry never holds two entries
with one URL), registering keeps every URL present, and the registry
built from any URL sequence lists its entries in first-insertion order
with the values derived from the keys. -/
theorem C7_registry_dedup :
    (∀ (items : Items) (u : Str), addItem (addItem items u) u = addItem items u) ∧
    (∀ (items : Items) (u : Str),
      itemKeys (addItem items u) =
        if u ∈ itemKeys items then itemKeys items else itemKeys items ++ [u]) ∧
    (∀ (items : Items) (u : Str), u ∈ itemKeys (addItem items u)) ∧
    (∀ urls : List Str, (itemKeys (addAll [] urls)).Nodup) ∧
    (∀ urls : List Str, itemKeys (addAll [] urls) = firstOccurrences urls) ∧
    (∀ urls : List Str,
      (addAll [] urls).map (·.2) =
        (firstOccurrences urls).map fun u =>
          (⟨u, ensureRelpathFromUrl u⟩ : DownloadItem)) := by
  refine ⟨addItem_idem, itemKeys_addItem, addItem_mem_keys, ?_, itemKeys_addAll_nil, ?_⟩
  · intro urls
    rw [itemKeys_foldl_addAll]
    exact firstOcc_nodup urls [] List.nodup_nil
  · intro urls
    rw [values_of_wf _ (wfItems_addAll urls [] wfItems_nil), itemKeys_addAll_nil]

/-- Claim C6 (confirmed): with no domain restriction, fetching a
simulated endpoint that fails its first `n` attempts and then succeeds is
attempted at most `retries + 1` times with exponential backoff (each
sleep `min (2 ^ attempt) 10`, doubling until the cap): when
`n ≤ retries` the item is reported successful after exactly `n + 1`
attempts, and when `retries < n` it is reported failed after exactly
`retries + 1` attempts with the last attempt's error description. -/
theorem C6_retry_behavior (item : DownloadItem) (n retries : Nat) (errs : Nat → Str) :
    (n ≤ retries →
      downloadOne (failOracle n errs) item retries none =
        ⟨item.url, true, none, n + 1, (List.range n).map fun k => min (2 ^ (k + 1)) 10⟩) ∧
    (retries < n →
      downloadOne (failOracle n errs) item retries none =
        ⟨item.url, false, some (errs retries), retries + 1,
          (List.range retries).map fun k => min (2 ^ (k + 1)) 10⟩) := by
  have hdom : checkDomain item.url none = true := rfl
  constructor
  · intro h
    unfold downloadOne
    rw [if_neg (by rw [hdom]; simp)]
    rw [dlLoop_zero_success retries n errs h]
  · intro h
    unfold downloadOne
    rw [if_neg (by rw [hdom]; simp)]
    rw [dlLoop_zero_fail retries n errs h]

/-- Witness for C6 at a concrete item and endpoint: two failures then
success with three retries allowed succeeds on the third attempt; five
failures with three retries allowed fails after four attempts reporting
the fourth error. -/
theorem C6_witness :
    downloadOne (failOracle 2 (fun i => 'e' :: natDigits i))
        ⟨chars "http://a.com/x.m4s", chars "x.m4s"⟩ 3 none =
      ⟨chars "http://a.com/x.m4s", true, none, 2 + 1,
        (List.range 2).map fun k => min (2 ^ (k + 1)) 10⟩ ∧
    downloadOne (failOracle 5 (fun i => 'e' :: natDigits i))
        ⟨chars "http://a.com/x.m4s", chars "x.m4s"⟩ 3 none =
      ⟨chars "http://a.com/x.m4s", false, some ('e' :: natDigits 3), 3 + 1,
        (List.range 3).map fun k => min (2 ^ (k + 1)) 10⟩ :=
  ⟨(C6_retry_behavior ⟨chars "http://a.com/x.m4s", chars "x.m4s"⟩ 2 3
      (fun i => 'e' :: natDigits i)).1 (by omega),
   (C6_retry_behavior ⟨chars "http://a.com/x.m4s", chars "x.m4s"⟩ 5 3
      (fun i => 'e' :: natDigits i)).2 (by omega)⟩

/-- Claim C9 (confirmed): with a non-empty domain allow-list configured, an
item whose URL hostname is not exactly the allow-listed domain is reported
failed with reason "wrong domain" and zero fetch attempts are made (no
network access), while with no allow-list configured the domain gate
accepts every URL. -/
theorem C9_domain_gate (oracle : Nat → Option Str) (item : DownloadItem)
    (retries : Nat) (d : Str) (hd : d ≠ []) (hhost : urlHostname item.url ≠ some d) :
    downloadOne oracle item retries (some d) =
      ⟨item.url, false, some (chars "wrong domain"), 0, []⟩ ∧
    (∀ url : Str, checkDomain url none = true) := by
  refine ⟨?_, fun url => rfl⟩
  unfold downloadOne
  have hfalse : checkDomain item.url (some d) = false := by
    unfold checkDomain
    dsimp only
    rw [if_neg hd]
    simp [hhost]
  rw [if_pos (by rw [hfalse]; simp)]

/-- Witness for C9: a URL on `a.com` is rejected without any attempt when
the allow-list names `b.com`, under an oracle that would always succeed. -/
theorem C9_witness :
    downloadOne (fun _ => none) ⟨chars "http://a.com/x.m4s", chars "x.m4s"⟩ 3
        (some (chars "b.com")) =
      ⟨chars "http://a.com/x.m4s", false, some (chars "wrong domain"), 0, []⟩ ∧
    (∀ url : Str, checkDomain url none = true) :=
  C9_domain_gate (fun _ => none) ⟨chars "http://a.com/x.m4s", chars "x.m4s"⟩ 3
    (chars "b.com") (by decide) (by decide)

/-- Claim C10 (confirmed): a timeline entry that declares no duration
leaves the running cursor unchanged, so all its `repeatCount + 1`
emissions substitute the same `$Time$` value; the emitted URLs are all
identical and the registry deduplicates them to a single `add_item`
effect (at most one new entry). -/
theorem C10_no_duration_dedup :
    (∀ (k : Nat) (c : Int), emitTimes none k c = (List.replicate k c, c)) ∧
    (∀ (media : Str) (rep : Rep) (base : Str) (k : Nat) (c : Int) (items : Items) (seg : Str),
      expandMediaTemplate media rep none (some c) = Except.ok seg →
      emitTimelineSegment media rep base none (k + 1) c items =
        Except.ok (addItem items (joinUrl base seg), c)) ∧
    (∀ (items : Items) (u : Str),
      (itemKeys (addItem items u)).length ≤ (itemKeys items).length + 1) := by
  refine ⟨fun k c => emitTimes_none k c, ?_, ?_⟩
  · intro media rep base k
    induction k with
    | zero =>
      intro c items seg hseg
      show (do
        let s ← expandMediaTemplate media rep none (some c)
        emitTimelineSegment media rep base none 0 (stepCur none c)
          (addItem items (joinUrl base s))) = _
      rw [hseg]
      rfl
    | succ k ih =>
      intro c items seg hseg
      show (do
        let s ← expandMediaTemplate media rep none (some c)
        emitTimelineSegment media rep base none (k + 1) (stepCur none c)
          (addItem items (joinUrl base s))) = _
      rw [hseg]
      show emitTimelineSegment media rep base none (k + 1) c
        (addItem items (joinUrl base seg)) = _
      rw [ih c (addItem items (joinUrl base seg)) seg hseg, addItem_idem]
  · intro items u
    rw [itemKeys_addItem]
    by_cases h : u ∈ itemKeys items
    · rw [if_pos h]
      omega
    · rw [if_neg h]
      simp

/-- Witness for C10 at a concrete entry: three emissions at the same
cursor produce a single registered item and the cursor stays at 7. -/
theorem C10_witness :
    emitTimelineSegment (chars "s-$Time$.m4s") ⟨some [], none, none, [], none, none⟩
        (chars "http://a.com/d/") none 3 7 [] =
      Except.ok (addItem [] (joinUrl (chars "http://a.com/d/") (chars "s-7.m4s")), 7) :=
  C10_no_duration_dedup.2.1 (chars "s-$Time$.m4s") ⟨some [], none, none, [], none, none⟩
    (chars "http://a.com/d/") 2 7 [] (chars "s-7.m4s") rfl

/-- Claim C8, counterexample.  The pattern `$Time$$Tim$RepresentationID$e$`
contains the token `$Time$`; with the time value supplied and a
representation whose id is the empty string, expansion succeeds and the
emitted text `0$Time$` still contains `$Time$` unsubstituted — the
`$RepresentationID$` substitution spliced the token back together, so "no
pattern containing these tokens ever yields an emitted URL with the token
unsubstituted" fails as stated. -/
theorem C8_counterexample :
    expandMediaTemplate (chars "$Time$$Tim$RepresentationID$e$")
        ⟨some [], some [], none, [], none, none⟩ none (some 0) =
      Except.ok (chars "0$Time$") ∧
    (chars "$Time$") <:+: (chars "$Time$$Tim$RepresentationID$e$") ∧
    (chars "$Time$") <:+: (chars "0$Time$") :=
  ⟨rfl, by decide, by decide⟩

/-- Claim C8 (amended): template expansion raises a fatal resolution error
whenever a media pattern uses `$Number` and no number is supplied, or
`$Time$` and no time is supplied, and a number-based template lacking a
timeline fails fatally when the external segment count is absent; the
`$Number$`/`$Time$` substitution steps themselves substitute every
occurrence of the exact token (none survives the step), but a later
`$RepresentationID$`/`$Bandwidth$` substitution may splice token text back
into the emitted URL. -/
theorem C8_template_fatal_errors :
    (∀ (pat : Str) (rep : Rep) (t : Option Int), (chars "$Number") <:+: pat →
      expandMediaTemplate pat rep none t =
        Except.error (chars "Template uses $Number$ but number=None")) ∧
    (∀ (pat : Str) (rep : Rep) (n : Option Int),
      ¬ (chars "$Number") <:+: pat → (chars "$Time$") <:+: pat →
      expandMediaTemplate pat rep n none =
        Except.error (chars "Template uses $Time$ but time=None")) ∧
    (∀ (rep : Rep) (adp : AdaptationSet) (base : Str) (st : SegTemplate)
        (media : Str) (items : Items),
      pickSegTemplate rep adp = some st → st.media = some media → media ≠ [] →
      st.timeline = none →
      parseSegmentTemplate rep adp base none items =
        Except.error (chars "Need DASH_SEGMENT_COUNT for number-based SegmentTemplate")) ∧
    (∀ (t : Int) (s : Str),
      ¬ (chars "$Time$") <:+: replaceAll (chars "$Time$") (intToStr t) s) ∧
    (∀ (n : Int) (s : Str), ¬ (chars "$Number$") <:+: numberReplace n s) := by
  refine ⟨?_, ?_, ?_, timeReplace_no_token, numberReplace_no_token⟩
  · intro pat rep t h
    unfold expandMediaTemplate
    rw [if_pos h]
    rfl
  · intro pat rep n hnn ht
    unfold expandMediaTemplate
    rw [if_neg hnn]
    show (do
      let out ←
        if (chars "$Time$") <:+: pat then
          match (none : Option Int) with
          | none => Except.error (chars "Template uses $Time$ but time=None")
          | some t => pure (replaceAll (chars "$Time$") (intToStr t) pat)
        else pure pat
      let out :=
        if (chars "$RepresentationID$") <:+: out then
          replaceAll (chars "$RepresentationID$") (rep.id.getD []) out
        else out
      let out :=
        if (chars "$Bandwidth$") <:+: out then
          replaceAll (chars "$Bandwidth$") (rep.bandwidth.getD []) out
        else out
      pure out) = Except.error (chars "Template uses $Time$ but time=None")
    rw [if_pos ht]
    rfl
  · intro rep adp base st media items hpick hmedia hm htl
    unfold parseSegmentTemplate
    rw [hpick]
    dsimp only
    rw [hmedia]
    dsimp only
    rw [if_neg hm, htl]

/-- Witness for C8's amended theorem at concrete inputs: a `$Number$`
pattern with no number errors, a `$Time$` pattern with no time errors, and
an adaptation-set-level number-based template with no external count
errors. -/
theorem C8_witness :
    expandMediaTemplate (chars "s-$Number$.m4s") ⟨some [], none, none, [], none, none⟩
        none (some 3) =
      Except.error (chars "Template uses $Number$ but number=None") ∧
    expandMediaTemplate (chars "s-$Time$.m4s") ⟨some [], none, none, [], none, none⟩
        (some 1) none =
      Except.error (chars "Template uses $Time$ but time=None") ∧
    parseSegmentTemplate ⟨some (chars "r"), none, none, [], none, none⟩
        ⟨none, [], none, some ⟨none, some (chars "s-$Number$.m4s"), none, none, 0⟩, []⟩
        (chars "http://a.com/d/") none [] =
      Except.error (chars "Need DASH_SEGMENT_COUNT for number-based SegmentTemplate") :=
  ⟨C8_template_fatal_errors.1 (chars "s-$Number$.m4s")
      ⟨some [], none, none, [], none, none⟩ (some 3) (by decide),
   C8_template_fatal_errors.2.1 (chars "s-$Time$.m4s")
      ⟨some [], none, none, [], none, none⟩ (some 1) (by decide) (by decide),
   C8_template_fatal_errors.2.2.1 ⟨some (chars "r"), none, none, [], none, none⟩
      ⟨none, [], none, some ⟨none, some (chars "s-$Number$.m4s"), none, none, 0⟩, []⟩
      (chars "http://a.com/d/") ⟨none, some (chars "s-$Number$.m4s"), none, none, 0⟩
      (chars "s-$Number$.m4s") [] rfl rfl (by decide) rfl⟩

end DashTool
